import Mathlib

/-!
# AI Snake Game: the navigation core of `src/main.cpp`

A shallow embedding of the A* path finder (`findPathAStar`), the occupancy
test (`isValidPos`), apple placement (`newApple`), `resetGame`, the tick
function `moveSnake` and the scheduler step `loop`, followed by theorems about
them.

Modelling conventions.

* `int` values are `Int`; array indices and `snake_length` are `Nat`
  (`snake_length` is only ever set to 2 and incremented).  Every coordinate
  stays within `-1 .. 16` and every `g` within `0 .. 128`, far from the 32-bit
  limits, so no wrap-around is modelled.
* `float speed` is an exact rational.  The values the program reaches
  (500, 100, 50) and their quotients by 5 are exactly representable.
* An access outside `snake[100]` or `closedList[16][8]` is undefined behaviour
  in C++; the model stops with `Fault.outOfBounds`.
* `std::priority_queue` is a parameter: any container with the interface
  `OpenList` obeying `OpenList.Lawful` (the top is an entry of least `f`).
  Which of several entries of equal `f` comes out first is left to the
  container, as it is in C++.  `listQueue` is one executable instance.
* The `while` loop of `findPathAStar` runs on fuel; `SEARCH_FUEL` is shown to
  be enough for every in-bounds start.
* `random()` is a tape of the values that successive calls return; running off
  the tape (`Fault.noRandom`) stands for a `do … while` loop that did not end
  within the given draws.  `millis()` is an argument; differences of
  `unsigned long` clock readings wrap at `2 ^ 32`.
* `expansions` repeats the search loop and records the cells it expands; it
  counts the iterations of `searchLoop` (`expansions_counts_iterations`).
* `Reachable` collects the states the running program passes through.
-/

namespace Snake

/-! ## Constants and data -/

/-- Macro `#define GRID_WIDTH 16`. -/
def GRID_WIDTH : Int := 16

/-- Macro `#define GRID_HEIGHT 8`. -/
def GRID_HEIGHT : Int := 8

/-- Size of the array `SnakeSegment snake[100]`. -/
def SNAKE_CAPACITY : Nat := 100

/-- Type `enum Direction { UP, DOWN, LEFT, RIGHT }` -/
inductive Direction where
  | UP
  | DOWN
  | LEFT
  | RIGHT
deriving DecidableEq, Repr

/-- Table `const int DIRECTIONS[4][2] = {{0, -1}, {0, 1}, {-1, 0}, {1, 0}}`, indexed by
the enum value. -/
def DIRECTIONS : Direction → Int × Int
  | .UP => (0, -1)
  | .DOWN => (0, 1)
  | .LEFT => (-1, 0)
  | .RIGHT => (1, 0)

/-- The index order `i = 0, 1, 2, 3` of the neighbour loop. -/
def directionOrder : List Direction := [.UP, .DOWN, .LEFT, .RIGHT]

/-- Type `struct SnakeSegment { int x, y; }` -/
structure SnakeSegment where
  x : Int
  y : Int
deriving DecidableEq, Repr

/-- What stops a run that has no defined result. -/
inductive Fault where
  | outOfBounds
  | noFuel
  | noRandom
deriving DecidableEq, Repr

deriving instance DecidableEq for Except

/-- A `Node*`: null, or a heap copy of a node made by `new Node(current)`. -/
inductive NodePtr where
  | null : NodePtr
  | heap (x y g h f : Int) (parent : NodePtr) : NodePtr
deriving DecidableEq, Repr

/-- Type `struct Node { int x, y; int g, h, f; Node* parent; }` -/
structure Node where
  x : Int
  y : Int
  g : Int
  h : Int
  f : Int
  parent : NodePtr
deriving DecidableEq, Repr

/-- The constructor `Node(x, y, g, h, parent)`, which sets `f(g + h)`. -/
def Node.new (x y g h : Int) (parent : NodePtr) : Node :=
  ⟨x, y, g, h, g + h, parent⟩

/-- Expression `new Node(current)`: the address of a copy of `current`. -/
def Node.copyToHeap (n : Node) : NodePtr :=
  .heap n.x n.y n.g n.h n.f n.parent

/-- C `abs` on `int`. -/
def absInt (a : Int) : Int := if a < 0 then -a else a

/-- Function `int heuristic(int x1, int y1, int x2, int y2)`: Manhattan distance. -/
def heuristic (x1 y1 x2 y2 : Int) : Int :=
  absInt (x1 - x2) + absInt (y1 - y2)

/-! ## The open list -/

/-- The interface of `std::priority_queue<Node, std::vector<Node>, std::greater<Node>>`
that `findPathAStar` uses.  `pop` is `empty()`, `top()` and `pop()` in one:
`none` when the queue is empty, otherwise the top and the queue without it.
`contents` lists the stored nodes (in no particular order). -/
structure OpenList where
  Q : Type
  empty : Q
  push : Q → Node → Q
  pop : Q → Option (Node × Q)
  contents : Q → List Node

/-- What C++ promises of a priority queue ordered by `std::greater` on `f`:
`push` adds one entry, `pop` removes one entry whose `f` is least. -/
structure OpenList.Lawful (pq : OpenList) : Prop where
  contents_empty : pq.contents pq.empty = []
  contents_push : ∀ q n, (pq.contents (pq.push q n)).Perm (n :: pq.contents q)
  pop_none : ∀ q, pq.pop q = none → pq.contents q = []
  pop_some : ∀ q n q1, pq.pop q = some (n, q1) →
    (pq.contents q).Perm (n :: pq.contents q1) ∧ ∀ m ∈ pq.contents q, n.f ≤ m.f

/-- Removes the first entry of least `f` from a list of nodes. -/
def popMin : List Node → Option (Node × List Node)
  | [] => none
  | n :: rest =>
    match popMin rest with
    | none => some (n, [])
    | some (m, rest1) => if n.f ≤ m.f then some (n, rest) else some (m, n :: rest1)

/-- An executable open list: a list in insertion order, from which `pop` takes the
earliest entry of least `f`. -/
def listQueue : OpenList where
  Q := List Node
  empty := []
  push := fun q n => q ++ [n]
  pop := popMin
  contents := fun q => q

/-! ## Occupancy -/

/-- Reading `snake[i]`. -/
def readSnake (snake : Nat → SnakeSegment) (i : Nat) : Except Fault SnakeSegment :=
  if i < SNAKE_CAPACITY then .ok (snake i) else .error .outOfBounds

/-- The loop of `isValidPos` over the remaining indices. -/
def isValidPosLoop (snake : Nat → SnakeSegment) (x y : Int) : List Nat → Except Fault Bool
  | [] => .ok true
  | i :: rest =>
    match readSnake snake i with
    | .error e => .error e
    | .ok seg => if seg.x = x ∧ seg.y = y then .ok false else isValidPosLoop snake x y rest

/-- Function `bool isValidPos(int x, int y)` over the globals `snake` and `snake_length`. -/
def isValidPos (snake : Nat → SnakeSegment) (snake_length : Nat) (x y : Int) :
    Except Fault Bool :=
  if x < 0 ∨ x ≥ GRID_WIDTH ∨ y < 0 ∨ y ≥ GRID_HEIGHT then .ok false
  else isValidPosLoop snake x y (List.range snake_length)

/-! ## A* search -/

/-- The reconstruction loop `while (node) { path.push_back(*node); node = node->parent; }`. -/
def walkParents : NodePtr → List Node
  | .null => []
  | .heap x y g h f parent => ⟨x, y, g, h, f, parent⟩ :: walkParents parent

/-- Path reconstruction starting at `&current`. -/
def reconstruct (current : Node) : List Node :=
  current :: walkParents current.parent

/-- The neighbour loop `for (int i = 0; i < 4; i++)` over the remaining directions;
the conjuncts of the `if` are evaluated left to right, so `isValidPos` is only
called for an in-bounds cell that is not closed. -/
def expand (pq : OpenList) (snake : Nat → SnakeSegment) (snake_length : Nat)
    (destX destY : Int) (current : Node) (closedList : Int → Int → Bool) :
    List Direction → pq.Q → Except Fault pq.Q
  | [], openList => .ok openList
  | d :: rest, openList =>
    let newX := current.x + (DIRECTIONS d).1
    let newY := current.y + (DIRECTIONS d).2
    if newX ≥ 0 ∧ newX < GRID_WIDTH ∧ newY ≥ 0 ∧ newY < GRID_HEIGHT
        ∧ closedList newX newY = false then
      match isValidPos snake snake_length newX newY with
      | .error e => .error e
      | .ok true =>
        let g := current.g + 1
        let h := heuristic newX newY destX destY
        expand pq snake snake_length destX destY current closedList rest
          (pq.push openList (Node.new newX newY g h current.copyToHeap))
      | .ok false => expand pq snake snake_length destX destY current closedList rest openList
    else expand pq snake snake_length destX destY current closedList rest openList

/-- Assignment `closedList[x][y] = true`. -/
def markClosed (closedList : Int → Int → Bool) (x y : Int) : Int → Int → Bool :=
  fun a b => if a = x ∧ b = y then true else closedList a b

/-- The loop `while (!openList.empty())` of `findPathAStar`.  `ok (some path)` is
`return true` with `path` the nodes pushed onto the vector, in push order;
`ok none` is `return false`. -/
def searchLoop (pq : OpenList) (snake : Nat → SnakeSegment) (snake_length : Nat)
    (destX destY : Int) :
    Nat → pq.Q → (Int → Int → Bool) → Except Fault (Option (List Node))
  | 0, _, _ => .error .noFuel
  | fuel + 1, openList, closedList =>
    match pq.pop openList with
    | none => .ok none
    | some (current, openList1) =>
      if current.x = destX ∧ current.y = destY then .ok (some (reconstruct current))
      else if 0 ≤ current.x ∧ current.x < GRID_WIDTH ∧ 0 ≤ current.y ∧ current.y < GRID_HEIGHT then
        let closedList1 := markClosed closedList current.x current.y
        match expand pq snake snake_length destX destY current closedList1 directionOrder
            openList1 with
        | .error e => .error e
        | .ok openList2 => searchLoop pq snake snake_length destX destY fuel openList2 closedList1
      else .error .outOfBounds

/-- Function `bool findPathAStar(int startX, int startY, int destX, int destY, std::vector<Node>& path)`
called with an empty `path`. -/
def findPathAStar (pq : OpenList) (fuel : Nat) (snake : Nat → SnakeSegment) (snake_length : Nat)
    (startX startY destX destY : Int) : Except Fault (Option (List Node)) :=
  searchLoop pq snake snake_length destX destY fuel
    (pq.push pq.empty (Node.new startX startY 0 (heuristic startX startY destX destY) .null))
    (fun _ _ => false)

/-- Fuel given to the search by `moveSnake`. -/
def SEARCH_FUEL : Nat := 5 ^ 129

/-- The loop of `findPathAStar` once more, this time recording the cell of every node it
expands (marks in `closedList` and generates the neighbours of), in order of expansion. -/
def expansions (pq : OpenList) (snake : Nat → SnakeSegment) (snake_length : Nat)
    (destX destY : Int) : Nat → pq.Q → (Int → Int → Bool) → List (Int × Int)
  | 0, _, _ => []
  | fuel + 1, openList, closedList =>
    match pq.pop openList with
    | none => []
    | some (current, openList1) =>
      if current.x = destX ∧ current.y = destY then []
      else if 0 ≤ current.x ∧ current.x < GRID_WIDTH ∧ 0 ≤ current.y ∧ current.y < GRID_HEIGHT then
        let closedList1 := markClosed closedList current.x current.y
        match expand pq snake snake_length destX destY current closedList1 directionOrder
            openList1 with
        | .error _ => [(current.x, current.y)]
        | .ok openList2 =>
          (current.x, current.y)
            :: expansions pq snake snake_length destX destY fuel openList2 closedList1
      else []

/-- The cells `findPathAStar` expands, in order. -/
def expandedCells (pq : OpenList) (fuel : Nat) (snake : Nat → SnakeSegment) (snake_length : Nat)
    (startX startY destX destY : Int) : List (Int × Int) :=
  expansions pq snake snake_length destX destY fuel
    (pq.push pq.empty (Node.new startX startY 0 (heuristic startX startY destX destY) .null))
    (fun _ _ => false)

/-! ## Game state -/

/-- The globals of the program, with the tape of future `random()` results. -/
structure Game where
  snake : Nat → SnakeSegment
  snake_length : Nat
  direction : Direction
  apple : Int × Int
  score : Int
  level : Int
  speed : ℚ
  lastMove : Nat
  gameOver : Bool
  gameOverTime : Nat
  random : List Int

/-- Constant `const float MIN_SPEED = 50`. -/
def MIN_SPEED : ℚ := 50

/-- The globals as C++ initialises them before `setup()` runs; the array `snake` is
zero-initialised. -/
def initialGame (random : List Int) : Game where
  snake := fun _ => ⟨0, 0⟩
  snake_length := 2
  direction := .RIGHT
  apple := (5, 5)
  score := 0
  level := 1
  speed := 500
  lastMove := 0
  gameOver := false
  gameOverTime := 0
  random := random

/-- Loop of `void newApple()`: the `do … while (!isValidPos(apple[0], apple[1]))` loop.  The
first draw of each round is `random(0, GRID_WIDTH)`, the second
`random(0, GRID_HEIGHT)`. -/
def newAppleLoop (snake : Nat → SnakeSegment) (snake_length : Nat) :
    List Int → Except Fault ((Int × Int) × List Int)
  | a :: b :: rest =>
    match isValidPos snake snake_length a b with
    | .error e => .error e
    | .ok true => .ok ((a, b), rest)
    | .ok false => newAppleLoop snake snake_length rest
  | _ => .error .noRandom

/-- Function `void newApple()`. -/
def newApple (s : Game) : Except Fault Game :=
  match newAppleLoop s.snake s.snake_length s.random with
  | .error e => .error e
  | .ok (apple, rest) => .ok { s with apple := apple, random := rest }

/-- Assignment `snake[i] = v`. -/
def writeSnake (snake : Nat → SnakeSegment) (i : Nat) (v : SnakeSegment) : Nat → SnakeSegment :=
  fun j => if j = i then v else snake j

/-- Function `void resetGame()`. -/
def resetGame (s : Game) : Except Fault Game :=
  let s1 := { s with snake_length := 2, direction := .RIGHT, score := 0, level := 1, speed := 500 }
  let s2 := { s1 with snake := writeSnake s1.snake 0 ⟨3, 3⟩ }
  let s3 := { s2 with snake := writeSnake s2.snake 1 ⟨3, 2⟩ }
  match newApple s3 with
  | .error e => .error e
  | .ok s4 => .ok { s4 with gameOver := false }

/-- Lines 163–176 of `moveSnake`: the value of `direction` after the path has been
consulted.  `path.back()` of an empty vector is undefined behaviour. -/
def steer (pq : OpenList) (s : Game) : Except Fault Direction :=
  match findPathAStar pq SEARCH_FUEL s.snake s.snake_length (s.snake 0).x (s.snake 0).y
      s.apple.1 s.apple.2 with
  | .error e => .error e
  | .ok none => .ok s.direction
  | .ok (some path) =>
    match path.getLast? with
    | none => .error .outOfBounds
    | some back =>
      let nextMove := (path.dropLast.getLast?).getD back
      let dx := nextMove.x - (s.snake 0).x
      let dy := nextMove.y - (s.snake 0).y
      if dx = 1 ∧ dy = 0 then .ok .RIGHT
      else if dx = -1 ∧ dy = 0 then .ok .LEFT
      else if dx = 0 ∧ dy = 1 then .ok .DOWN
      else if dx = 0 ∧ dy = -1 then .ok .UP
      else .ok s.direction

/-- The loop `for (int i = snake_length - 1; i > 0; i--) snake[i] = snake[i - 1];`
entered with `i = k`. -/
def shiftBody (snake : Nat → SnakeSegment) : Nat → Except Fault (Nat → SnakeSegment)
  | 0 => .ok snake
  | k + 1 =>
    if k + 1 < SNAKE_CAPACITY then shiftBody (writeSnake snake (k + 1) (snake k)) k
    else .error .outOfBounds

/-- Function `void moveSnake()`; `now` is what `millis()` returns. -/
def moveSnake (pq : OpenList) (s : Game) (now : Nat) : Except Fault Game :=
  match steer pq s with
  | .error e => .error e
  | .ok direction =>
    let s1 := { s with direction := direction }
    let new_x := (s1.snake 0).x + (DIRECTIONS direction).1
    let new_y := (s1.snake 0).y + (DIRECTIONS direction).2
    match isValidPos s1.snake s1.snake_length new_x new_y with
    | .error e => .error e
    | .ok false => .ok { s1 with gameOver := true, gameOverTime := now }
    | .ok true =>
      match shiftBody s1.snake (s1.snake_length - 1) with
      | .error e => .error e
      | .ok shifted =>
        let s2 := { s1 with snake := writeSnake shifted 0 ⟨new_x, new_y⟩ }
        if (s2.snake 0).x = s2.apple.1 ∧ (s2.snake 0).y = s2.apple.2 then
          newApple { s2 with snake_length := s2.snake_length + 1, score := s2.score + 1,
                             speed := max MIN_SPEED (s2.speed / 5) }
        else .ok s2

/-- A run of `n` ticks; every tick reads the clock as `now`. -/
def ticks (pq : OpenList) (now : Nat) : Nat → Game → Except Fault Game
  | 0, s => .ok s
  | n + 1, s =>
    match moveSnake pq s now with
    | .error e => .error e
    | .ok s1 => ticks pq now n s1

/-- Modulus of `unsigned long` arithmetic: 32 bits on the boards the sketch targets. -/
def ULONG_MODULUS : Nat := 2 ^ 32

/-- Difference `a - b` of two `unsigned long` values, which wraps around. -/
def subUnsignedLong (a b : Nat) : Nat :=
  (a % ULONG_MODULUS + (ULONG_MODULUS - b % ULONG_MODULUS)) % ULONG_MODULUS

/-- Function `void loop()`.  The argument `t1` is what the first `millis()` call returns
(line 216 or line 223), `t2` the call inside `moveSnake` (line 184) and `t3` the call of
line 226.  `drawGrid()` only draws: it changes no global.  The comparison with the `float`
`speed` is exact, `speed` being one of 500, 100, 50. -/
def loop (pq : OpenList) (s : Game) (t1 t2 t3 : Nat) : Except Fault Game :=
  if s.gameOver = true then
    if subUnsignedLong t1 s.gameOverTime ≥ 1000 then resetGame s
    else .ok s
  else if ((subUnsignedLong t1 s.lastMove : Nat) : ℚ) > s.speed then
    match moveSnake pq s t2 with
    | .error e => .error e
    | .ok s1 => .ok { s1 with lastMove := t3 % ULONG_MODULUS }
  else .ok s

/-! ## Vocabulary of the statements -/

/-- The cell `(x, y)` lies on the 16x8 grid. -/
def InGrid (x y : Int) : Prop :=
  0 ≤ x ∧ x < GRID_WIDTH ∧ 0 ≤ y ∧ y < GRID_HEIGHT

instance (x y : Int) : Decidable (InGrid x y) :=
  inferInstanceAs (Decidable (0 ≤ x ∧ x < GRID_WIDTH ∧ 0 ≤ y ∧ y < GRID_HEIGHT))

/-- The cell `(x, y)` passes `isValidPos` against the given body. -/
def Passes (snake : Nat → SnakeSegment) (snake_length : Nat) (x y : Int) : Prop :=
  isValidPos snake snake_length x y = .ok true

instance (snake : Nat → SnakeSegment) (n : Nat) (x y : Int) : Decidable (Passes snake n x y) :=
  inferInstanceAs (Decidable (isValidPos snake n x y = .ok true))

/-- Cell `b` is one unit step up, down, left or right of cell `a`. -/
def Adjacent (a b : Int × Int) : Prop :=
  ∃ d ∈ directionOrder, b = (a.1 + (DIRECTIONS d).1, a.2 + (DIRECTIONS d).2)

instance (a b : Int × Int) : Decidable (Adjacent a b) :=
  inferInstanceAs (Decidable
    (∃ d ∈ directionOrder, b = (a.1 + (DIRECTIONS d).1, a.2 + (DIRECTIONS d).2)))

/-- One step of a valid path: to an adjacent cell that passes `isValidPos`. -/
def ValidStep (snake : Nat → SnakeSegment) (snake_length : Nat) (a b : Int × Int) : Prop :=
  Adjacent a b ∧ Passes snake snake_length b.1 b.2

instance (snake : Nat → SnakeSegment) (n : Nat) (a b : Int × Int) :
    Decidable (ValidStep snake n a b) :=
  inferInstanceAs (Decidable (Adjacent a b ∧ Passes snake n b.1 b.2))

/-- A valid path: a sequence of cells from `start` to `goal` whose consecutive cells
are 4-directionally adjacent and whose every cell after the first passes
`isValidPos`. -/
def ValidPath (snake : Nat → SnakeSegment) (snake_length : Nat) (start goal : Int × Int)
    (cells : List (Int × Int)) : Prop :=
  cells.head? = some start ∧ cells.getLast? = some goal
    ∧ cells.Chain' (ValidStep snake snake_length)

/-- The cell of a search node. -/
def Node.cell (n : Node) : Int × Int := (n.x, n.y)

/-- Predicate `Reach k x y`: `k` valid steps lead from the start to `(x, y)`. -/
inductive Reach (snake : Nat → SnakeSegment) (snake_length : Nat) (startX startY : Int) :
    Nat → Int → Int → Prop where
  | start : Reach snake snake_length startX startY 0 startX startY
  | step {k : Nat} {x y : Int} (d : Direction) :
      Reach snake snake_length startX startY k x y →
      Passes snake snake_length (x + (DIRECTIONS d).1) (y + (DIRECTIONS d).2) →
      Reach snake snake_length startX startY (k + 1) (x + (DIRECTIONS d).1) (y + (DIRECTIONS d).2)

/-- Predicate `Frontier closed k x y`: `(x, y)` is the start, or one valid step beyond a closed
cell that `k - 1` valid steps reach. -/
inductive Frontier (snake : Nat → SnakeSegment) (snake_length : Nat) (startX startY : Int)
    (closedList : Int → Int → Bool) : Nat → Int → Int → Prop where
  | start : Frontier snake snake_length startX startY closedList 0 startX startY
  | step {k : Nat} {x y : Int} (d : Direction) :
      Reach snake snake_length startX startY k x y →
      closedList x y = true →
      Passes snake snake_length (x + (DIRECTIONS d).1) (y + (DIRECTIONS d).2) →
      Frontier snake snake_length startX startY closedList (k + 1)
        (x + (DIRECTIONS d).1) (y + (DIRECTIONS d).2)

/-- Predicate `GoodChain p x y g`: a node at `(x, y)` with cost `g` and parent pointer `p` stands
at the end of a chain of valid steps from the start, one per unit of cost. -/
inductive GoodChain (snake : Nat → SnakeSegment) (snake_length : Nat) (startX startY : Int) :
    NodePtr → Int → Int → Int → Prop where
  | root : GoodChain snake snake_length startX startY .null startX startY 0
  | step {p : NodePtr} {px py pg : Int} (ph pf : Int) (d : Direction) :
      GoodChain snake snake_length startX startY p px py pg →
      Passes snake snake_length (px + (DIRECTIONS d).1) (py + (DIRECTIONS d).2) →
      GoodChain snake snake_length startX startY (.heap px py pg ph pf p)
        (px + (DIRECTIONS d).1) (py + (DIRECTIONS d).2) (pg + 1)

/-- A well-formed search node: a good chain behind it, `h` the heuristic of its
cell, `f = g + h`. -/
def GoodNode (snake : Nat → SnakeSegment) (snake_length : Nat) (startX startY destX destY : Int)
    (n : Node) : Prop :=
  GoodChain snake snake_length startX startY n.parent n.x n.y n.g
    ∧ n.h = heuristic n.x n.y destX destY ∧ n.f = n.g + n.h

/-- The nodes that expanding `current` adds to the open list. -/
def children (snake : Nat → SnakeSegment) (snake_length : Nat) (destX destY : Int)
    (current : Node) (closedList : Int → Int → Bool) (dirs : List Direction) : List Node :=
  dirs.filterMap fun d =>
    let newX := current.x + (DIRECTIONS d).1
    let newY := current.y + (DIRECTIONS d).2
    if InGrid newX newY ∧ closedList newX newY = false ∧ Passes snake snake_length newX newY then
      some (Node.new newX newY (current.g + 1) (heuristic newX newY destX destY)
        current.copyToHeap)
    else none

/-- The invariant of the search loop. -/
structure SearchInv (pq : OpenList) (snake : Nat → SnakeSegment) (snake_length : Nat)
    (startX startY destX destY : Int) (openList : pq.Q) (closedList : Int → Int → Bool) :
    Prop where
  good : ∀ n ∈ pq.contents openList, GoodNode snake snake_length startX startY destX destY n
  frontier : ∀ k x y, Frontier snake snake_length startX startY closedList k x y →
    closedList x y = false → ∃ n ∈ pq.contents openList, n.x = x ∧ n.y = y ∧ n.g ≤ k
  dest_open : closedList destX destY = false

/-- The cells of the grid. -/
def gridCells : List (Int × Int) :=
  (List.range 16).flatMap fun (x : Nat) =>
    (List.range 8).map fun (y : Nat) => (Int.ofNat x, Int.ofNat y)

/-- Number of grid cells not yet closed. -/
def unclosed (closedList : Int → Int → Bool) : Nat :=
  gridCells.countP fun c => closedList c.1 c.2 = false

/-- Weight of an open-list entry in the termination measure. -/
def weight (closedList : Int → Int → Bool) (n : Node) : Nat :=
  if closedList n.x n.y = true then 5 ^ (unclosed closedList + 1) else 5 ^ unclosed closedList

/-- The termination measure of the search loop: it drops with every iteration. -/
def searchMeasure (pq : OpenList) (openList : pq.Q) (closedList : Int → Int → Bool) : Nat :=
  ((pq.contents openList).map (weight closedList)).sum

/-- The state is one a tick can run on: the length fits the array and the head is on
the grid. -/
def WellFormed (s : Game) : Prop :=
  s.snake_length ≤ SNAKE_CAPACITY ∧ InGrid (s.snake 0).x (s.snake 0).y

/-- The state of a non-colliding tick in direction `d` after the body has been shifted
and the head written (line 195). -/
def moved (s : Game) (d : Direction) : Game :=
  { s with
    direction := d
    snake := writeSnake
      (fun j => if 1 ≤ j ∧ j ≤ s.snake_length - 1 then s.snake (j - 1) else s.snake j) 0
      ⟨(s.snake 0).x + (DIRECTIONS d).1, (s.snake 0).y + (DIRECTIONS d).2⟩ }

/-- The state of an eating tick just before `newApple()` is called (line 201). -/
def grown (s : Game) (d : Direction) : Game :=
  { moved s d with
    snake_length := s.snake_length + 1
    score := s.score + 1
    speed := max MIN_SPEED (s.speed / 5) }

/-- The state of `resetGame` just before `newApple()` is called (line 114). -/
def freshGame (s : Game) : Game :=
  { s with
    snake_length := 2
    direction := .RIGHT
    score := 0
    level := 1
    speed := 500
    snake := writeSnake (writeSnake s.snake 0 ⟨3, 3⟩) 1 ⟨3, 2⟩ }

/-- The states the program reaches: those `resetGame` returns (at start-up or after a game
over), those a tick returns when taken with `gameOver` false, and those with a new
`lastMove` stamp. -/
inductive Reachable (pq : OpenList) : Game → Prop where
  | reset (s0 s : Game) : resetGame s0 = .ok s → Reachable pq s
  | tick (s s1 : Game) (now : Nat) : Reachable pq s → s.gameOver = false →
      moveSnake pq s now = .ok s1 → Reachable pq s1
  | stamp (s : Game) (t : Nat) : Reachable pq s → Reachable pq { s with lastMove := t }

/-! ## Concrete states used as examples -/

/-- A body of two segments: head `(3,3)`, then `(3,2)`; the rest of the array is zero. -/
def twoSegments : Nat → SnakeSegment :=
  fun i => if i = 0 then ⟨3, 3⟩ else if i = 1 then ⟨3, 2⟩ else ⟨0, 0⟩

/-- The scenario of the specification: head `(3,3)`, body `(3,2)`, food `(5,3)`. -/
def scenarioGame : Game :=
  { initialGame [] with snake := twoSegments, apple := (5, 3) }

/-- The nodes `findPathAStar` pushes onto `path` from `(3,3)` to `(5,3)`: goal first. -/
def scenarioPath : List Node :=
  [⟨5, 3, 2, 0, 2, .heap 4 3 1 1 2 (.heap 3 3 0 2 2 .null)⟩,
   ⟨4, 3, 1, 1, 2, .heap 3 3 0 2 2 .null⟩,
   ⟨3, 3, 0, 2, 2, .null⟩]

/-- A longer valid path between the same cells. -/
def scenarioDetour : List (Int × Int) :=
  [(3, 3), (3, 4), (4, 4), (5, 4), (5, 3)]

/-- A body of six segments curled in the top-left corner region: the head `(2,0)` has
the grid edge above, body cells to the left and below, and the tail `(3,0)` to the right. -/
def curledSegments : Nat → SnakeSegment :=
  fun i => if i = 0 then ⟨2, 0⟩ else if i = 1 then ⟨1, 0⟩ else if i = 2 then ⟨1, 1⟩
    else if i = 3 then ⟨2, 1⟩ else if i = 4 then ⟨3, 1⟩ else if i = 5 then ⟨3, 0⟩ else ⟨0, 0⟩

/-- The curled snake, heading right toward its own tail, food at `(5,5)`. -/
def curledGame : Game :=
  { initialGame [] with snake := curledSegments, snake_length := 6, apple := (5, 5) }

/-- A body of four segments in the corner: the head `(0,0)` is shut in by the grid edge
and the body. -/
def cornerSegments : Nat → SnakeSegment :=
  fun i => if i = 0 then ⟨0, 0⟩ else if i = 1 then ⟨1, 0⟩ else if i = 2 then ⟨1, 1⟩
    else if i = 3 then ⟨0, 1⟩ else ⟨0, 0⟩

/-- The cornered snake, heading left off the grid, food at `(5,5)`. -/
def corneredGame : Game :=
  { initialGame [] with snake := cornerSegments, snake_length := 4, direction := .LEFT,
                        apple := (5, 5) }

/-- The second scenario of the specification: snake `(0,0),(0,1)` facing right, food at
`(1,0)`, tick interval 500; the next food is drawn at `(7,4)`. -/
def eatingGame : Game :=
  { initialGame [7, 4] with
      snake := fun i => if i = 0 then ⟨0, 0⟩ else if i = 1 then ⟨0, 1⟩ else ⟨0, 0⟩,
      apple := (1, 0) }

/-- Program start, then `resetGame` (as `setup()` calls it), then `n` ticks, on the list
queue with the random draws `0, 0, 5, 5`. -/
def firstGame (n : Nat) : Except Fault Game :=
  match resetGame (initialGame [0, 0, 5, 5]) with
  | .error e => .error e
  | .ok s => ticks listQueue 0 n s

/-- An obstacle-free body: both segments lie on the start cell `(3,3)`, so no other cell
is occupied. -/
def stackedSegments : Nat → SnakeSegment :=
  fun _ => ⟨3, 3⟩

/-- A body of 100 segments laid out row by row (left to right on even rows, right to left
on odd rows) from the tail at `(0,0)` to the head at `(3,6)`; rows 0 to 5 are full. -/
def fullSegments : Nat → SnakeSegment :=
  fun i =>
    if i < 100 then
      let t := 99 - i
      if (t / 16) % 2 = 0 then ⟨Int.ofNat (t % 16), Int.ofNat (t / 16)⟩
      else ⟨Int.ofNat (15 - t % 16), Int.ofNat (t / 16)⟩
    else ⟨0, 0⟩

/-- The snake at full capacity, heading right, with the food on the next cell `(4,6)`; the
random source would offer the free cell `(7,7)`. -/
def fullGame : Game :=
  { initialGame [7, 7] with snake := fullSegments, snake_length := 100, apple := (4, 6) }

/-- A state in which the game is over since clock reading 5000. -/
def overGame : Game :=
  { initialGame [4, 4] with gameOver := true, gameOverTime := 5000, score := 7, speed := 50 }

/-- A body of twelve segments coiled around the head `(1,1)`: it walls in the block of
cells `(1,1),(2,1),(1,2),(2,2)` and, with `(1,0)` and `(0,1)`, shuts off the corner `(0,0)`. -/
def coiledSegments : Nat → SnakeSegment :=
  fun i => if i = 0 then ⟨1, 1⟩ else if i = 1 then ⟨1, 0⟩ else if i = 2 then ⟨2, 0⟩
    else if i = 3 then ⟨3, 0⟩ else if i = 4 then ⟨3, 1⟩ else if i = 5 then ⟨3, 2⟩
    else if i = 6 then ⟨3, 3⟩ else if i = 7 then ⟨2, 3⟩ else if i = 8 then ⟨1, 3⟩
    else if i = 9 then ⟨0, 3⟩ else if i = 10 then ⟨0, 2⟩ else if i = 11 then ⟨0, 1⟩
    else ⟨0, 0⟩

/-- The coiled snake with the food in the shut-off corner `(0,0)`. -/
def coiledGame : Game :=
  { initialGame [] with snake := coiledSegments, snake_length := 12, direction := .DOWN,
                        apple := (0, 0) }

/-! ## Occupancy test -/

theorem readSnake_of_lt {snake : Nat → SnakeSegment} {i : Nat} (h : i < SNAKE_CAPACITY) :
    readSnake snake i = .ok (snake i) := by
  simp [readSnake, h]

theorem isValidPosLoop_true_iff (snake : Nat → SnakeSegment) (x y : Int) (l : List Nat) :
    isValidPosLoop snake x y l = .ok true ↔
      ∀ i ∈ l, i < SNAKE_CAPACITY ∧ ¬((snake i).x = x ∧ (snake i).y = y) := by
  induction l with
  | nil => simp [isValidPosLoop]
  | cons i rest ih =>
    simp only [isValidPosLoop, readSnake, List.mem_cons, forall_eq_or_imp]
    by_cases hi : i < SNAKE_CAPACITY
    · by_cases hm : (snake i).x = x ∧ (snake i).y = y
      · simp [hi, hm]
      · simp only [hi, if_true, hm, if_false, ih, not_false_eq_true, and_self, true_and]
    · simp [hi]

theorem isValidPosLoop_false_iff (snake : Nat → SnakeSegment) (x y : Int) (l : List Nat)
    (hl : ∀ i ∈ l, i < SNAKE_CAPACITY) :
    isValidPosLoop snake x y l = .ok false ↔ ∃ i ∈ l, (snake i).x = x ∧ (snake i).y = y := by
  induction l with
  | nil => simp [isValidPosLoop]
  | cons i rest ih =>
    have hi : i < SNAKE_CAPACITY := hl i (List.mem_cons_self _ _)
    have ih1 := ih (fun j hj => hl j (List.mem_cons_of_mem _ hj))
    simp only [isValidPosLoop, readSnake, hi, if_true, List.mem_cons, exists_eq_or_imp]
    by_cases hm : (snake i).x = x ∧ (snake i).y = y
    · simp [hm]
    · simp only [hm, if_false, ih1, false_or]

theorem isValidPosLoop_total (snake : Nat → SnakeSegment) (x y : Int) (l : List Nat)
    (hl : ∀ i ∈ l, i < SNAKE_CAPACITY) : ∃ b, isValidPosLoop snake x y l = .ok b := by
  induction l with
  | nil => exact ⟨true, rfl⟩
  | cons i rest ih =>
    have hi : i < SNAKE_CAPACITY := hl i (List.mem_cons_self _ _)
    have ih1 := ih (fun j hj => hl j (List.mem_cons_of_mem _ hj))
    simp only [isValidPosLoop, readSnake, hi, if_true]
    by_cases hm : (snake i).x = x ∧ (snake i).y = y
    · exact ⟨false, by simp [hm]⟩
    · simpa [hm] using ih1

theorem not_inGrid_iff (x y : Int) :
    ¬InGrid x y ↔ (x < 0 ∨ x ≥ GRID_WIDTH ∨ y < 0 ∨ y ≥ GRID_HEIGHT) := by
  unfold InGrid
  constructor
  · intro h
    by_contra hc
    push_neg at hc
    exact h ⟨hc.1, hc.2.1, hc.2.2.1, hc.2.2.2⟩
  · rintro h ⟨h1, h2, h3, h4⟩
    rcases h with h | h | h | h <;> omega

theorem isValidPos_of_not_inGrid (snake : Nat → SnakeSegment) (n : Nat) {x y : Int}
    (h : ¬InGrid x y) : isValidPos snake n x y = .ok false := by
  rw [not_inGrid_iff] at h
  simp [isValidPos, h]

theorem isValidPos_of_inGrid (snake : Nat → SnakeSegment) (n : Nat) {x y : Int}
    (h : InGrid x y) : isValidPos snake n x y = isValidPosLoop snake x y (List.range n) := by
  have h1 : ¬(x < 0 ∨ x ≥ GRID_WIDTH ∨ y < 0 ∨ y ≥ GRID_HEIGHT) := by
    rw [← not_inGrid_iff]; exact not_not.mpr h
  simp [isValidPos, h1]

/-- Function `isValidPos` answers `true` exactly for an in-bounds cell that differs from each
of the first `snake_length` segments, all of which lie inside the array. -/
theorem passes_iff (snake : Nat → SnakeSegment) (n : Nat) (x y : Int) :
    Passes snake n x y ↔
      InGrid x y ∧ ∀ i < n, i < SNAKE_CAPACITY ∧ ¬((snake i).x = x ∧ (snake i).y = y) := by
  unfold Passes
  by_cases h : InGrid x y
  · rw [isValidPos_of_inGrid snake n h, isValidPosLoop_true_iff]
    simp [h, List.mem_range]
  · rw [isValidPos_of_not_inGrid snake n h]
    simp [h]

theorem Passes.inGrid {snake : Nat → SnakeSegment} {n : Nat} {x y : Int}
    (h : Passes snake n x y) : InGrid x y :=
  ((passes_iff snake n x y).mp h).1

theorem isValidPos_total (snake : Nat → SnakeSegment) {n : Nat} (hn : n ≤ SNAKE_CAPACITY)
    (x y : Int) : ∃ b, isValidPos snake n x y = .ok b := by
  by_cases h : InGrid x y
  · rw [isValidPos_of_inGrid snake n h]
    exact isValidPosLoop_total snake x y _ (fun i hi => by
      have := List.mem_range.mp hi
      omega)
  · exact ⟨false, isValidPos_of_not_inGrid snake n h⟩

/-- With the body inside the array, `isValidPos` answers `false` exactly for a cell
off the grid or on one of the first `snake_length` segments. -/
theorem isValidPos_false_iff (snake : Nat → SnakeSegment) {n : Nat} (hn : n ≤ SNAKE_CAPACITY)
    (x y : Int) :
    isValidPos snake n x y = .ok false ↔
      ¬InGrid x y ∨ ∃ i < n, (snake i).x = x ∧ (snake i).y = y := by
  by_cases h : InGrid x y
  · rw [isValidPos_of_inGrid snake n h, isValidPosLoop_false_iff]
    · simp [h, List.mem_range]
    · intro i hi
      have := List.mem_range.mp hi
      omega
  · simp [isValidPos_of_not_inGrid snake n h, h]

/-! ## The open list and the neighbour loop -/

theorem OpenList.Lawful.mem_push {pq : OpenList} (h : pq.Lawful) (q : pq.Q) (n m : Node) :
    m ∈ pq.contents (pq.push q n) ↔ m = n ∨ m ∈ pq.contents q := by
  rw [(h.contents_push q n).mem_iff, List.mem_cons]

theorem OpenList.Lawful.mem_pop {pq : OpenList} (h : pq.Lawful) {q q1 : pq.Q} {n : Node}
    (hp : pq.pop q = some (n, q1)) (m : Node) :
    m ∈ pq.contents q ↔ m = n ∨ m ∈ pq.contents q1 := by
  rw [(h.pop_some q n q1 hp).1.mem_iff, List.mem_cons]

theorem expand_nil (pq : OpenList) (snake : Nat → SnakeSegment) (len : Nat) (dX dY : Int)
    (current : Node) (closed : Int → Int → Bool) (q : pq.Q) :
    expand pq snake len dX dY current closed [] q = .ok q := rfl

theorem expand_cons (pq : OpenList) (snake : Nat → SnakeSegment) (len : Nat) (dX dY : Int)
    (current : Node) (closed : Int → Int → Bool) (d : Direction) (rest : List Direction)
    (q : pq.Q) :
    expand pq snake len dX dY current closed (d :: rest) q =
      if InGrid (current.x + (DIRECTIONS d).1) (current.y + (DIRECTIONS d).2)
          ∧ closed (current.x + (DIRECTIONS d).1) (current.y + (DIRECTIONS d).2) = false then
        match isValidPos snake len (current.x + (DIRECTIONS d).1) (current.y + (DIRECTIONS d).2) with
        | .error e => .error e
        | .ok true =>
          expand pq snake len dX dY current closed rest
            (pq.push q (Node.new (current.x + (DIRECTIONS d).1) (current.y + (DIRECTIONS d).2)
              (current.g + 1)
              (heuristic (current.x + (DIRECTIONS d).1) (current.y + (DIRECTIONS d).2) dX dY)
              current.copyToHeap))
        | .ok false => expand pq snake len dX dY current closed rest q
      else expand pq snake len dX dY current closed rest q := by
  simp only [expand, InGrid, ge_iff_le, and_assoc]

theorem children_cons (snake : Nat → SnakeSegment) (len : Nat) (dX dY : Int)
    (current : Node) (closed : Int → Int → Bool) (d : Direction) (rest : List Direction) :
    children snake len dX dY current closed (d :: rest) =
      if InGrid (current.x + (DIRECTIONS d).1) (current.y + (DIRECTIONS d).2)
          ∧ closed (current.x + (DIRECTIONS d).1) (current.y + (DIRECTIONS d).2) = false
          ∧ Passes snake len (current.x + (DIRECTIONS d).1) (current.y + (DIRECTIONS d).2) then
        Node.new (current.x + (DIRECTIONS d).1) (current.y + (DIRECTIONS d).2) (current.g + 1)
            (heuristic (current.x + (DIRECTIONS d).1) (current.y + (DIRECTIONS d).2) dX dY)
            current.copyToHeap
          :: children snake len dX dY current closed rest
      else children snake len dX dY current closed rest := by
  unfold children
  rw [List.filterMap_cons]
  split_ifs with h <;> simp [h]

/-- The neighbour loop adds exactly the `children` to the open list. -/
theorem expand_contents {pq : OpenList} (hpq : pq.Lawful) (snake : Nat → SnakeSegment)
    (len : Nat) (dX dY : Int) (current : Node) (closed : Int → Int → Bool) :
    ∀ (dirs : List Direction) (q q1 : pq.Q),
      expand pq snake len dX dY current closed dirs q = .ok q1 →
      (pq.contents q1).Perm (children snake len dX dY current closed dirs ++ pq.contents q) := by
  intro dirs
  induction dirs with
  | nil =>
    intro q q1 h
    rw [expand_nil] at h
    cases h
    simp [children]
  | cons d rest ih =>
    intro q q1 h
    rw [expand_cons] at h
    rw [children_cons]
    by_cases hc : InGrid (current.x + (DIRECTIONS d).1) (current.y + (DIRECTIONS d).2)
        ∧ closed (current.x + (DIRECTIONS d).1) (current.y + (DIRECTIONS d).2) = false
    · rw [if_pos hc] at h
      cases hv : isValidPos snake len (current.x + (DIRECTIONS d).1) (current.y + (DIRECTIONS d).2) with
      | error e => rw [hv] at h; cases h
      | ok b =>
        cases b with
        | true =>
          rw [hv] at h
          have h1 := ih _ _ h
          have hp : Passes snake len (current.x + (DIRECTIONS d).1) (current.y + (DIRECTIONS d).2) := hv
          rw [if_pos ⟨hc.1, hc.2, hp⟩]
          refine h1.trans ?_
          refine (List.Perm.append_left _ (hpq.contents_push q _)).trans ?_
          simp only [List.cons_append]
          exact List.perm_middle
        | false =>
          rw [hv] at h
          have h1 := ih _ _ h
          have hp : ¬Passes snake len (current.x + (DIRECTIONS d).1) (current.y + (DIRECTIONS d).2) := by
            unfold Passes; rw [hv]; simp
          rw [if_neg (fun hh => hp hh.2.2)]
          exact h1
    · rw [if_neg hc] at h
      rw [if_neg (fun hh => hc ⟨hh.1, hh.2.1⟩)]
      exact ih _ _ h

/-- With the body inside the array the neighbour loop runs to its end. -/
theorem expand_total (pq : OpenList) (snake : Nat → SnakeSegment) {len : Nat}
    (hlen : len ≤ SNAKE_CAPACITY) (dX dY : Int) (current : Node) (closed : Int → Int → Bool) :
    ∀ (dirs : List Direction) (q : pq.Q),
      ∃ q1, expand pq snake len dX dY current closed dirs q = .ok q1 := by
  intro dirs
  induction dirs with
  | nil => intro q; exact ⟨q, rfl⟩
  | cons d rest ih =>
    intro q
    rw [expand_cons]
    split_ifs with hc
    · obtain ⟨b, hb⟩ := isValidPos_total snake hlen (current.x + (DIRECTIONS d).1)
        (current.y + (DIRECTIONS d).2)
      rw [hb]
      cases b with
      | true => exact ih _
      | false => exact ih _
    · exact ih _

theorem mem_children_iff (snake : Nat → SnakeSegment) (len : Nat) (dX dY : Int)
    (current : Node) (closed : Int → Int → Bool) (dirs : List Direction) (m : Node) :
    m ∈ children snake len dX dY current closed dirs ↔
      ∃ d ∈ dirs, InGrid (current.x + (DIRECTIONS d).1) (current.y + (DIRECTIONS d).2)
        ∧ closed (current.x + (DIRECTIONS d).1) (current.y + (DIRECTIONS d).2) = false
        ∧ Passes snake len (current.x + (DIRECTIONS d).1) (current.y + (DIRECTIONS d).2)
        ∧ m = Node.new (current.x + (DIRECTIONS d).1) (current.y + (DIRECTIONS d).2)
            (current.g + 1)
            (heuristic (current.x + (DIRECTIONS d).1) (current.y + (DIRECTIONS d).2) dX dY)
            current.copyToHeap := by
  induction dirs with
  | nil => simp [children]
  | cons d rest ih =>
    rw [children_cons]
    split_ifs with hc
    · rw [List.mem_cons, ih]
      simp only [List.mem_cons, exists_eq_or_imp]
      constructor
      · rintro (h | h)
        · exact Or.inl ⟨hc.1, hc.2.1, hc.2.2, h⟩
        · exact Or.inr h
      · rintro (h | h)
        · exact Or.inl h.2.2.2
        · exact Or.inr h
    · rw [ih]
      simp only [List.mem_cons, exists_eq_or_imp]
      constructor
      · intro h; exact Or.inr h
      · rintro (h | h)
        · exact absurd ⟨h.1, h.2.1, h.2.2.1⟩ hc
        · exact h

theorem mem_directionOrder (d : Direction) : d ∈ directionOrder := by
  cases d <;> simp [directionOrder]

/-! ## The heuristic -/

theorem heuristic_self (x y : Int) : heuristic x y x y = 0 := by
  simp [heuristic, absInt]

theorem heuristic_step (x y dX dY : Int) (d : Direction) :
    heuristic x y dX dY ≤ 1 + heuristic (x + (DIRECTIONS d).1) (y + (DIRECTIONS d).2) dX dY := by
  cases d <;> simp only [heuristic, absInt, DIRECTIONS] <;> split_ifs <;> omega

/-! ## The invariant of the search loop -/

theorem markClosed_eq_true_iff (closed : Int → Int → Bool) (cx cy x y : Int) :
    markClosed closed cx cy x y = true ↔ (x = cx ∧ y = cy) ∨ closed x y = true := by
  unfold markClosed
  split_ifs with h <;> simp [h]

theorem markClosed_eq_false_iff (closed : Int → Int → Bool) (cx cy x y : Int) :
    markClosed closed cx cy x y = false ↔ ¬(x = cx ∧ y = cy) ∧ closed x y = false := by
  unfold markClosed
  split_ifs with h <;> simp [h]

/-- Every cell that valid steps reach and that is not closed lies behind a frontier
cell, which is at least as promising. -/
theorem frontier_of_reach {snake : Nat → SnakeSegment} {len : Nat} {sX sY : Int} (dX dY : Int)
    (closed : Int → Int → Bool) {k : Nat} {x y : Int}
    (hr : Reach snake len sX sY k x y) (hc : closed x y = false) :
    ∃ p ex ey, Frontier snake len sX sY closed p ex ey ∧ closed ex ey = false
      ∧ (p : Int) + heuristic ex ey dX dY ≤ (k : Int) + heuristic x y dX dY := by
  induction hr with
  | start => exact ⟨0, sX, sY, Frontier.start, hc, le_refl _⟩
  | @step k x y d hr hp ih =>
    cases hcl : closed x y with
    | true => exact ⟨k + 1, _, _, Frontier.step d hr hcl hp, hc, le_refl _⟩
    | false =>
      obtain ⟨p, ex, ey, hf, hec, hle⟩ := ih hcl
      refine ⟨p, ex, ey, hf, hec, ?_⟩
      have := heuristic_step x y dX dY d
      push_cast
      omega

theorem SearchInv.exists_le {pq : OpenList} {snake : Nat → SnakeSegment} {len : Nat}
    {sX sY dX dY : Int} {q : pq.Q} {closed : Int → Int → Bool}
    (inv : SearchInv pq snake len sX sY dX dY q closed) {k : Nat} {x y : Int}
    (hr : Reach snake len sX sY k x y) (hc : closed x y = false) :
    ∃ n ∈ pq.contents q, n.f ≤ (k : Int) + heuristic x y dX dY := by
  obtain ⟨p, ex, ey, hf, hec, hle⟩ := frontier_of_reach dX dY closed hr hc
  obtain ⟨n, hn, hx, hy, hg⟩ := inv.frontier p ex ey hf hec
  refine ⟨n, hn, ?_⟩
  obtain ⟨-, hh, hff⟩ := inv.good n hn
  rw [hff, hh, hx, hy]
  omega

theorem SearchInv.init {pq : OpenList} (hpq : pq.Lawful) (snake : Nat → SnakeSegment)
    (len : Nat) (sX sY dX dY : Int) :
    SearchInv pq snake len sX sY dX dY
      (pq.push pq.empty (Node.new sX sY 0 (heuristic sX sY dX dY) .null)) (fun _ _ => false) := by
  have hmem : ∀ m, m ∈ pq.contents (pq.push pq.empty
      (Node.new sX sY 0 (heuristic sX sY dX dY) .null)) ↔
      m = Node.new sX sY 0 (heuristic sX sY dX dY) .null := by
    intro m
    rw [hpq.mem_push, hpq.contents_empty]
    simp
  refine ⟨?_, ?_, rfl⟩
  · intro n hn
    rw [hmem] at hn
    subst hn
    exact ⟨GoodChain.root, rfl, rfl⟩
  · intro k x y hf _
    cases hf with
    | start => exact ⟨_, (hmem _).mpr rfl, rfl, rfl, le_refl _⟩
    | step d hr hcl hp => cases hcl

/-- One iteration of the loop that does not return keeps the invariant. -/
theorem SearchInv.step {pq : OpenList} (hpq : pq.Lawful) {snake : Nat → SnakeSegment}
    {len : Nat} {sX sY dX dY : Int} {q q1 q2 : pq.Q} {closed : Int → Int → Bool}
    {current : Node}
    (inv : SearchInv pq snake len sX sY dX dY q closed)
    (hpop : pq.pop q = some (current, q1))
    (hnd : ¬(current.x = dX ∧ current.y = dY))
    (hexp : expand pq snake len dX dY current (markClosed closed current.x current.y)
      directionOrder q1 = .ok q2) :
    SearchInv pq snake len sX sY dX dY q2 (markClosed closed current.x current.y) := by
  have hperm := expand_contents hpq snake len dX dY current
    (markClosed closed current.x current.y) directionOrder q1 q2 hexp
  have hmem2 : ∀ m, m ∈ pq.contents q2 ↔
      m ∈ children snake len dX dY current (markClosed closed current.x current.y) directionOrder
        ∨ m ∈ pq.contents q1 := by
    intro m
    rw [hperm.mem_iff, List.mem_append]
  have hcur : current ∈ pq.contents q := (hpq.mem_pop hpop current).mpr (Or.inl rfl)
  have hmin := (hpq.pop_some q current q1 hpop).2
  obtain ⟨hcg, hch, hcf⟩ := inv.good current hcur
  -- an entry of the old open list on a cell still open survives the pop
  have keep : ∀ n ∈ pq.contents q, ∀ x y, n.x = x → n.y = y →
      markClosed closed current.x current.y x y = false → n ∈ pq.contents q2 := by
    intro n hn x y hx hy hcl
    rw [markClosed_eq_false_iff] at hcl
    rcases (hpq.mem_pop hpop n).mp hn with h | h
    · subst h
      exact absurd ⟨hx.symm, hy.symm⟩ hcl.1
    · exact (hmem2 n).mpr (Or.inr h)
  refine ⟨?_, ?_, ?_⟩
  · intro n hn
    rcases (hmem2 n).mp hn with h | h
    · rw [mem_children_iff] at h
      obtain ⟨d, -, -, -, hp, rfl⟩ := h
      exact ⟨GoodChain.step current.h current.f d hcg hp, rfl, rfl⟩
    · exact inv.good n ((hpq.mem_pop hpop n).mpr (Or.inr h))
  · intro k x y hf hcl
    cases hf with
    | start =>
      obtain ⟨n, hn, hx, hy, hg⟩ := inv.frontier 0 sX sY Frontier.start
        ((markClosed_eq_false_iff _ _ _ _ _).mp hcl).2
      exact ⟨n, keep n hn _ _ hx hy hcl, hx, hy, hg⟩
    | @step k x y d hr hc1 hp =>
      cases hc0 : closed x y with
      | true =>
        obtain ⟨n, hn, hx, hy, hg⟩ := inv.frontier _ _ _ (Frontier.step d hr hc0 hp)
          ((markClosed_eq_false_iff _ _ _ _ _).mp hcl).2
        exact ⟨n, keep n hn _ _ hx hy hcl, hx, hy, hg⟩
      | false =>
        rw [markClosed_eq_true_iff, hc0] at hc1
        have hxy : x = current.x ∧ y = current.y := by
          rcases hc1 with h | h
          · exact h
          · cases h
        obtain ⟨hx, hy⟩ := hxy
        subst hx hy
        obtain ⟨n, hn, hle⟩ := inv.exists_le hr hc0
        have h1 := hmin n hn
        have hgk : current.g ≤ (k : Int) := by
          rw [hcf, hch] at h1
          omega
        refine ⟨Node.new (current.x + (DIRECTIONS d).1) (current.y + (DIRECTIONS d).2)
            (current.g + 1)
            (heuristic (current.x + (DIRECTIONS d).1) (current.y + (DIRECTIONS d).2) dX dY)
            current.copyToHeap, ?_, rfl, rfl, ?_⟩
        · rw [hmem2]
          left
          rw [mem_children_iff]
          exact ⟨d, mem_directionOrder d, hp.inGrid, hcl, hp, rfl⟩
        · show current.g + 1 ≤ ((k + 1 : Nat) : Int)
          push_cast
          omega
  · rw [markClosed_eq_false_iff]
    exact ⟨fun h => hnd ⟨h.1.symm, h.2.symm⟩, inv.dest_open⟩

theorem searchLoop_succ (pq : OpenList) (snake : Nat → SnakeSegment) (len : Nat)
    (dX dY : Int) (fuel : Nat) (q : pq.Q) (closed : Int → Int → Bool) :
    searchLoop pq snake len dX dY (fuel + 1) q closed =
      match pq.pop q with
      | none => .ok none
      | some (current, q1) =>
        if current.x = dX ∧ current.y = dY then .ok (some (reconstruct current))
        else if InGrid current.x current.y then
          match expand pq snake len dX dY current (markClosed closed current.x current.y)
              directionOrder q1 with
          | .error e => .error e
          | .ok q2 => searchLoop pq snake len dX dY fuel q2 (markClosed closed current.x current.y)
        else .error .outOfBounds := by
  rfl

/-- What the loop returns from a state that satisfies the invariant: a well-formed node
on the goal whose cost no route beats, or nothing when no route exists. -/
theorem searchLoop_spec {pq : OpenList} (hpq : pq.Lawful) (snake : Nat → SnakeSegment)
    (len : Nat) (sX sY dX dY : Int) :
    ∀ (fuel : Nat) (q : pq.Q) (closed : Int → Int → Bool) (r : Option (List Node)),
      SearchInv pq snake len sX sY dX dY q closed →
      searchLoop pq snake len dX dY fuel q closed = .ok r →
      (∀ path, r = some path → ∃ n, GoodNode snake len sX sY dX dY n ∧ n.x = dX ∧ n.y = dY
          ∧ path = reconstruct n ∧ ∀ k, Reach snake len sX sY k dX dY → n.g ≤ (k : Int))
      ∧ (r = none → ∀ k, ¬Reach snake len sX sY k dX dY) := by
  intro fuel
  induction fuel with
  | zero => intro q closed r _ h; cases h
  | succ fuel ih =>
    intro q closed r inv h
    rw [searchLoop_succ] at h
    cases hpop : pq.pop q with
    | none =>
      rw [hpop] at h
      cases h
      refine ⟨fun path hp => (by cases hp), fun _ k hr => ?_⟩
      obtain ⟨n, hn, -⟩ := inv.exists_le hr inv.dest_open
      rw [hpq.pop_none q hpop] at hn
      cases hn
    | some p =>
      obtain ⟨current, q1⟩ := p
      rw [hpop] at h
      simp only at h
      by_cases hd : current.x = dX ∧ current.y = dY
      · rw [if_pos hd] at h
        cases h
        refine ⟨fun path hp => ?_, fun hn => (by cases hn)⟩
        cases hp
        have hcur : current ∈ pq.contents q := (hpq.mem_pop hpop current).mpr (Or.inl rfl)
        refine ⟨current, inv.good current hcur, hd.1, hd.2, rfl, fun k hr => ?_⟩
        obtain ⟨n, hn, hle⟩ := inv.exists_le hr inv.dest_open
        have h1 := (hpq.pop_some q current q1 hpop).2 n hn
        obtain ⟨-, hch, hcf⟩ := inv.good current hcur
        rw [hcf, hch, hd.1, hd.2, heuristic_self] at h1
        rw [heuristic_self] at hle
        omega
      · rw [if_neg hd] at h
        by_cases hg : InGrid current.x current.y
        · rw [if_pos hg] at h
          cases hexp : expand pq snake len dX dY current (markClosed closed current.x current.y)
              directionOrder q1 with
          | error e => rw [hexp] at h; cases h
          | ok q2 =>
            rw [hexp] at h
            exact ih q2 _ r (inv.step hpq hpop hd hexp) h
        · rw [if_neg hg] at h
          cases h

/-! ## Chains of parent pointers and valid paths -/

theorem ValidPath.single (snake : Nat → SnakeSegment) (len : Nat) (a : Int × Int) :
    ValidPath snake len a a [a] :=
  ⟨rfl, rfl, List.chain'_singleton a⟩

theorem ValidPath.snoc {snake : Nat → SnakeSegment} {len : Nat} {s a b : Int × Int}
    {l : List (Int × Int)} (h : ValidPath snake len s a l) (hs : ValidStep snake len a b) :
    ValidPath snake len s b (l ++ [b]) := by
  obtain ⟨hh, hl, hc⟩ := h
  refine ⟨?_, ?_, ?_⟩
  · cases l with
    | nil => cases hh
    | cons c l => simpa using hh
  · simp
  · rw [List.chain'_append]
    refine ⟨hc, List.chain'_singleton b, ?_⟩
    intro x hx y hy
    rw [hl] at hx
    simp only [Option.mem_def, Option.some.injEq, List.head?_cons] at hx hy
    subst hx hy
    exact hs

theorem adjacent_step (x y : Int) (d : Direction) :
    Adjacent (x, y) (x + (DIRECTIONS d).1, y + (DIRECTIONS d).2) :=
  ⟨d, mem_directionOrder d, rfl⟩

/-- The nodes behind a good chain, read from the start, form a valid path of `g + 1`
cells, and every cell of it but the start passes `isValidPos`. -/
theorem GoodChain.path {snake : Nat → SnakeSegment} {len : Nat} {sX sY : Int} {p : NodePtr}
    {x y g : Int} (h : GoodChain snake len sX sY p x y g) :
    ((walkParents p).length : Int) = g
      ∧ ValidPath snake len (sX, sY) (x, y) (((walkParents p).map Node.cell).reverse ++ [(x, y)])
      ∧ ∀ c ∈ ((x, y) :: (walkParents p).map Node.cell).dropLast,
          InGrid c.1 c.2 ∧ Passes snake len c.1 c.2 := by
  induction h with
  | root =>
    refine ⟨rfl, ?_, ?_⟩
    · simpa [walkParents] using ValidPath.single snake len (sX, sY)
    · simp [walkParents]
  | @step p px py pg ph pf d hc hp ih =>
    obtain ⟨ih1, ih2, ih3⟩ := ih
    refine ⟨?_, ?_, ?_⟩
    · simp only [walkParents, List.length_cons]
      push_cast
      omega
    · simp only [walkParents, List.map_cons, List.reverse_cons, Node.cell]
      exact ValidPath.snoc ih2 ⟨adjacent_step px py d, hp⟩
    · simp only [walkParents, List.map_cons, Node.cell, List.dropLast_cons₂, List.mem_cons]
      rintro c (rfl | hc1)
      · exact ⟨hp.inGrid, hp⟩
      · exact ih3 c hc1

theorem reach_of_chain {snake : Nat → SnakeSegment} {len : Nat} {sX sY : Int} :
    ∀ (l : List (Int × Int)) (a b : Int × Int) (k : Nat),
      Reach snake len sX sY k a.1 a.2 → List.Chain (ValidStep snake len) a l →
      (a :: l).getLast? = some b → Reach snake len sX sY (k + l.length) b.1 b.2 := by
  intro l
  induction l with
  | nil =>
    intro a b k hr _ hl
    simp only [List.getLast?_singleton, Option.some.injEq] at hl
    subst hl
    exact hr
  | cons c l ih =>
    intro a b k hr hc hl
    rw [List.chain_cons] at hc
    obtain ⟨⟨⟨d, -, hd⟩, hp⟩, hc2⟩ := hc
    rw [List.getLast?_cons_cons] at hl
    have hr2 : Reach snake len sX sY (k + 1) c.1 c.2 := by
      have := Reach.step d hr (by rw [hd] at hp; exact hp)
      rw [hd]
      exact this
    have := ih c b (k + 1) hr2 hc2 hl
    rw [List.length_cons]
    have e : k + (l.length + 1) = k + 1 + l.length := by omega
    rw [e]
    exact this

/-- A valid path of `m` cells shows that `m - 1` valid steps reach its last cell. -/
theorem ValidPath.reach {snake : Nat → SnakeSegment} {len : Nat} {sX sY : Int}
    {goal : Int × Int} {cells : List (Int × Int)}
    (h : ValidPath snake len (sX, sY) goal cells) :
    Reach snake len sX sY (cells.length - 1) goal.1 goal.2 := by
  obtain ⟨hh, hl, hc⟩ := h
  cases cells with
  | nil => cases hh
  | cons a l =>
    simp only [List.head?_cons, Option.some.injEq] at hh
    subst hh
    have := reach_of_chain l (sX, sY) goal 0 Reach.start hc hl
    simpa using this

/-- The result of `findPathAStar`, in terms of the node that reached the goal. -/
theorem findPathAStar_spec {pq : OpenList} (hpq : pq.Lawful) (fuel : Nat)
    (snake : Nat → SnakeSegment) (len : Nat) (sX sY dX dY : Int) (r : Option (List Node))
    (h : findPathAStar pq fuel snake len sX sY dX dY = .ok r) :
    (∀ path, r = some path → ∃ n, GoodNode snake len sX sY dX dY n ∧ n.x = dX ∧ n.y = dY
        ∧ path = reconstruct n ∧ ∀ k, Reach snake len sX sY k dX dY → n.g ≤ (k : Int))
    ∧ (r = none → ∀ k, ¬Reach snake len sX sY k dX dY) :=
  searchLoop_spec hpq snake len sX sY dX dY fuel _ _ r (SearchInv.init hpq snake len sX sY dX dY) h

theorem popMin_spec : ∀ (l : List Node),
    (popMin l = none → l = []) ∧
    (∀ n rest, popMin l = some (n, rest) → l.Perm (n :: rest) ∧ ∀ m ∈ l, n.f ≤ m.f) := by
  intro l
  induction l with
  | nil => exact ⟨fun _ => rfl, fun n rest h => by cases h⟩
  | cons a l ih =>
    refine ⟨?_, ?_⟩
    · intro h
      simp only [popMin] at h
      split at h <;> try cases h
      split_ifs at h
    · intro n rest h
      simp only [popMin] at h
      cases hp : popMin l with
      | none =>
        rw [hp] at h
        simp only [Option.some.injEq, Prod.mk.injEq] at h
        obtain ⟨rfl, rfl⟩ := h
        have := ih.1 hp
        subst this
        exact ⟨List.Perm.refl _, by simp⟩
      | some p =>
        obtain ⟨m, rest1⟩ := p
        rw [hp] at h
        simp only at h
        obtain ⟨hperm, hmin⟩ := ih.2 m rest1 hp
        split_ifs at h with hle
        · simp only [Option.some.injEq, Prod.mk.injEq] at h
          obtain ⟨rfl, rfl⟩ := h
          refine ⟨List.Perm.refl _, ?_⟩
          intro k hk
          rcases List.mem_cons.mp hk with rfl | hk
          · exact le_refl _
          · exact le_trans hle (hmin k hk)
        · simp only [Option.some.injEq, Prod.mk.injEq] at h
          obtain ⟨rfl, rfl⟩ := h
          refine ⟨?_, ?_⟩
          · exact (List.Perm.cons a hperm).trans (List.Perm.swap _ _ _)
          · intro k hk
            rcases List.mem_cons.mp hk with rfl | hk
            · omega
            · exact hmin k hk

/-- The list queue is a lawful open list. -/
theorem listQueue_lawful : listQueue.Lawful where
  contents_empty := rfl
  contents_push := fun (q : List Node) n => List.perm_append_singleton n q
  pop_none := fun q h => (popMin_spec q).1 h
  pop_some := fun q n q1 h => (popMin_spec q).2 n q1 h

/-! ## Termination of the search loop -/

theorem mem_gridCells {x y : Int} (h : InGrid x y) : (x, y) ∈ gridCells := by
  obtain ⟨h1, h2, h3, h4⟩ := h
  simp only [GRID_WIDTH, GRID_HEIGHT] at h2 h4
  simp only [gridCells, List.mem_flatMap, List.mem_map, List.mem_range, Prod.mk.injEq]
  refine ⟨x.toNat, by omega, y.toNat, by omega, ?_, ?_⟩
  · exact Int.toNat_of_nonneg h1
  · exact Int.toNat_of_nonneg h3

theorem length_gridCells : gridCells.length = 128 := by
  simp [gridCells, List.length_flatMap, Function.comp_def]

theorem countP_lt_countP {α : Type} (p q : α → Bool) (hqp : ∀ a, q a = true → p a = true) :
    ∀ (l : List α) (a : α), a ∈ l → p a = true → q a = false → l.countP q < l.countP p := by
  intro l
  induction l with
  | nil => intro a ha; cases ha
  | cons b l ih =>
    intro a ha hpa hqa
    rw [List.countP_cons, List.countP_cons]
    have hmono : l.countP q ≤ l.countP p := List.countP_mono_left (fun x _ hx => hqp x hx)
    rcases List.mem_cons.mp ha with rfl | hal
    · rw [if_pos hpa, if_neg (by rw [hqa]; exact Bool.false_ne_true)]
      omega
    · have := ih a hal hpa hqa
      by_cases hqb : q b = true
      · rw [if_pos hqb, if_pos (hqp b hqb)]
        omega
      · rw [if_neg hqb]
        split_ifs <;> omega

theorem unclosed_le (closed : Int → Int → Bool) : unclosed closed ≤ 128 := by
  unfold unclosed
  rw [← length_gridCells]
  exact List.countP_le_length _

theorem unclosed_markClosed_lt {closed : Int → Int → Bool} {x y : Int} (hg : InGrid x y)
    (hc : closed x y = false) : unclosed (markClosed closed x y) < unclosed closed := by
  unfold unclosed
  refine countP_lt_countP _ _ ?_ gridCells (x, y) (mem_gridCells hg) ?_ ?_
  · intro a ha
    simp only [decide_eq_true_eq] at ha ⊢
    exact ((markClosed_eq_false_iff _ _ _ _ _).mp ha).2
  · simpa using hc
  · simp [markClosed]

theorem markClosed_of_closed {closed : Int → Int → Bool} {x y : Int} (hc : closed x y = true) :
    markClosed closed x y = closed := by
  funext a b
  unfold markClosed
  split_ifs with h
  · rw [h.1, h.2, hc]
  · rfl

/-- Closing the cell of the popped node lowers no weight, and leaves the popped node's
old weight at least five times the weight of a fresh entry. -/
theorem weight_markClosed (closed : Int → Int → Bool) {current : Node}
    (hg : InGrid current.x current.y) :
    (∀ n, weight (markClosed closed current.x current.y) n ≤ weight closed n)
      ∧ 5 ^ (unclosed (markClosed closed current.x current.y) + 1) ≤ weight closed current := by
  cases hc : closed current.x current.y with
  | true =>
    rw [markClosed_of_closed hc]
    refine ⟨fun n => le_refl _, ?_⟩
    simp [weight, hc]
  | false =>
    have hlt := unclosed_markClosed_lt hg hc
    have hpow : 5 ^ (unclosed (markClosed closed current.x current.y) + 1) ≤ 5 ^ unclosed closed :=
      Nat.pow_le_pow_right (by norm_num) hlt
    have hpow2 : 5 ^ unclosed closed ≤ 5 ^ (unclosed closed + 1) :=
      Nat.pow_le_pow_right (by norm_num) (Nat.le_succ _)
    have hpow3 : 5 ^ unclosed (markClosed closed current.x current.y)
        ≤ 5 ^ (unclosed (markClosed closed current.x current.y) + 1) :=
      Nat.pow_le_pow_right (by norm_num) (Nat.le_succ _)
    refine ⟨fun n => ?_, ?_⟩
    · unfold weight
      split_ifs with h1 h0 h0
      · exact le_trans hpow hpow2
      · exact hpow
      · exact le_trans (le_trans hpow3 hpow) hpow2
      · exact le_trans hpow3 hpow
    · simp only [weight, hc, Bool.false_eq_true, if_false]
      exact hpow

theorem sum_weight_children_lt (snake : Nat → SnakeSegment) (len : Nat) (dX dY : Int)
    (current : Node) (closed : Int → Int → Bool) :
    ((children snake len dX dY current closed directionOrder).map (weight closed)).sum
      < 5 ^ (unclosed closed + 1) := by
  have hlen : (children snake len dX dY current closed directionOrder).length ≤ 4 := by
    unfold children
    exact le_trans (List.length_filterMap_le _ _) (by simp [directionOrder])
  have hw : ∀ w ∈ (children snake len dX dY current closed directionOrder).map (weight closed),
      w ≤ 5 ^ unclosed closed := by
    intro w hw
    rw [List.mem_map] at hw
    obtain ⟨m, hm, rfl⟩ := hw
    rw [mem_children_iff] at hm
    obtain ⟨d, -, -, hcl, -, rfl⟩ := hm
    simp [weight, Node.new, hcl]
  have h1 := List.sum_le_card_nsmul _ _ hw
  rw [List.length_map, smul_eq_mul] at h1
  have h2 : (children snake len dX dY current closed directionOrder).length * 5 ^ unclosed closed
      ≤ 4 * 5 ^ unclosed closed := Nat.mul_le_mul_right _ hlen
  have h3 : 0 < 5 ^ unclosed closed := pow_pos (by norm_num) _
  rw [pow_succ]
  omega

/-- An iteration that does not return lowers the termination measure. -/
theorem searchMeasure_step {pq : OpenList} (hpq : pq.Lawful) {snake : Nat → SnakeSegment}
    {len : Nat} {dX dY : Int} {q q1 q2 : pq.Q} {closed : Int → Int → Bool} {current : Node}
    (hpop : pq.pop q = some (current, q1)) (hg : InGrid current.x current.y)
    (hexp : expand pq snake len dX dY current (markClosed closed current.x current.y)
      directionOrder q1 = .ok q2) :
    searchMeasure pq q2 (markClosed closed current.x current.y) < searchMeasure pq q closed := by
  have hperm := expand_contents hpq snake len dX dY current
    (markClosed closed current.x current.y) directionOrder q1 q2 hexp
  have hperm0 := (hpq.pop_some q current q1 hpop).1
  obtain ⟨hw, hcur⟩ := weight_markClosed closed hg
  have hch := sum_weight_children_lt snake len dX dY current
    (markClosed closed current.x current.y)
  have hrest : ((pq.contents q1).map (weight (markClosed closed current.x current.y))).sum
      ≤ ((pq.contents q1).map (weight closed)).sum :=
    List.sum_le_sum (fun n _ => hw n)
  unfold searchMeasure
  rw [(hperm.map _).sum_eq, (hperm0.map _).sum_eq, List.map_append, List.sum_append,
    List.map_cons, List.sum_cons]
  omega

/-- The loop ends within any fuel above the termination measure. -/
theorem searchLoop_total {pq : OpenList} (hpq : pq.Lawful) (snake : Nat → SnakeSegment)
    {len : Nat} (hlen : len ≤ SNAKE_CAPACITY) (dX dY : Int) :
    ∀ (fuel : Nat) (q : pq.Q) (closed : Int → Int → Bool),
      (∀ n ∈ pq.contents q, InGrid n.x n.y) → searchMeasure pq q closed < fuel →
      ∃ r, searchLoop pq snake len dX dY fuel q closed = .ok r := by
  intro fuel
  induction fuel with
  | zero => intro q closed _ h; omega
  | succ fuel ih =>
    intro q closed hin hm
    rw [searchLoop_succ]
    cases hpop : pq.pop q with
    | none => exact ⟨none, rfl⟩
    | some p =>
      obtain ⟨current, q1⟩ := p
      simp only
      by_cases hd : current.x = dX ∧ current.y = dY
      · rw [if_pos hd]
        exact ⟨_, rfl⟩
      · rw [if_neg hd]
        have hg : InGrid current.x current.y :=
          hin current ((hpq.mem_pop hpop current).mpr (Or.inl rfl))
        rw [if_pos hg]
        obtain ⟨q2, hexp⟩ := expand_total pq snake hlen dX dY current
          (markClosed closed current.x current.y) directionOrder q1
        rw [hexp]
        simp only
        apply ih
        · intro n hn
          have hperm := expand_contents hpq snake len dX dY current
            (markClosed closed current.x current.y) directionOrder q1 q2 hexp
          rw [hperm.mem_iff, List.mem_append] at hn
          rcases hn with h | h
          · rw [mem_children_iff] at h
            obtain ⟨d, -, hgd, -, -, rfl⟩ := h
            exact hgd
          · exact hin n ((hpq.mem_pop hpop n).mpr (Or.inr h))
        · have := searchMeasure_step hpq hpop hg hexp
          omega

/-- Function `findPathAStar` returns (never runs out of fuel, never leaves the arrays) for every
in-bounds start, every body that fits the array and any fuel above `5 ^ 128`. -/
theorem findPathAStar_total {pq : OpenList} (hpq : pq.Lawful) {fuel : Nat}
    (hfuel : 5 ^ 128 < fuel) (snake : Nat → SnakeSegment) {len : Nat}
    (hlen : len ≤ SNAKE_CAPACITY) {sX sY : Int} (hs : InGrid sX sY) (dX dY : Int) :
    ∃ r, findPathAStar pq fuel snake len sX sY dX dY = .ok r := by
  unfold findPathAStar
  have hmem : ∀ m, m ∈ pq.contents (pq.push pq.empty
      (Node.new sX sY 0 (heuristic sX sY dX dY) .null)) ↔
      m = Node.new sX sY 0 (heuristic sX sY dX dY) .null := by
    intro m
    rw [hpq.mem_push, hpq.contents_empty]
    simp
  apply searchLoop_total hpq snake hlen
  · intro n hn
    rw [hmem] at hn
    subst hn
    exact hs
  · have hperm := hpq.contents_push pq.empty (Node.new sX sY 0 (heuristic sX sY dX dY) .null)
    unfold searchMeasure
    rw [(hperm.map _).sum_eq, hpq.contents_empty]
    simp only [List.map_cons, List.map_nil, List.sum_cons, List.sum_nil, add_zero, weight,
      Bool.false_eq_true, if_false]
    have : 5 ^ unclosed (fun _ _ => false) ≤ 5 ^ 128 :=
      Nat.pow_le_pow_right (by norm_num) (unclosed_le _)
    omega

theorem search_fuel_enough : 5 ^ 128 < SEARCH_FUEL := by
  unfold SEARCH_FUEL
  exact Nat.pow_lt_pow_right (by norm_num) (by norm_num)

/-! ## Claims about `findPathAStar` -/

/-- C1: whenever `findPathAStar` returns true, the number of cells it puts in `path` is
at most the number of cells of any valid path between the same endpoints (any sequence
from start to goal whose consecutive cells are 4-directionally adjacent and whose every
cell after the start passes `isValidPos`).  This holds for every lawful priority queue,
every fuel, every start and goal and every snake body. -/
theorem findPathAStar_shortest {pq : OpenList} (hpq : pq.Lawful) (fuel : Nat)
    (snake : Nat → SnakeSegment) (len : Nat) (sX sY dX dY : Int) (path : List Node)
    (cells : List (Int × Int))
    (hfound : findPathAStar pq fuel snake len sX sY dX dY = .ok (some path))
    (hcells : ValidPath snake len (sX, sY) (dX, dY) cells) :
    path.length ≤ cells.length := by
  obtain ⟨n, hgood, -, -, rfl, hopt⟩ :=
    (findPathAStar_spec hpq fuel snake len sX sY dX dY _ hfound).1 path rfl
  have hk := hopt _ hcells.reach
  have hlen := hgood.1.path.1
  have hne : cells ≠ [] := by
    intro h
    have := hcells.1
    rw [h] at this
    cases this
  have hpos : 0 < cells.length := List.length_pos.mpr hne
  simp only [reconstruct, List.length_cons]
  omega

/-- The detour of five cells around the direct route is a valid path. -/
theorem scenarioDetour_valid : ValidPath twoSegments 2 (3, 3) (5, 3) scenarioDetour := by
  refine ⟨rfl, rfl, ?_⟩
  simp only [scenarioDetour, List.chain'_cons, List.chain'_singleton, and_true]
  decide

/-- Witness of C1 on the scenario of the specification: the path found from `(3,3)` to
`(5,3)` has 3 cells, a detour of 5 cells is valid, and 3 ≤ 5. -/
theorem findPathAStar_shortest_witness :
    findPathAStar listQueue SEARCH_FUEL twoSegments 2 3 3 5 3 = .ok (some scenarioPath)
      ∧ ValidPath twoSegments 2 (3, 3) (5, 3) scenarioDetour
      ∧ scenarioPath.length ≤ scenarioDetour.length :=
  ⟨by decide, scenarioDetour_valid,
    findPathAStar_shortest listQueue_lawful SEARCH_FUEL twoSegments 2 3 3 5 3 scenarioPath
      scenarioDetour (by decide) scenarioDetour_valid⟩

/-- C2: for every in-bounds start, every goal and every snake body that fits the array,
`findPathAStar` (with any fuel above `5 ^ 128`, on any lawful queue) returns false exactly
when no valid path (no 4-directional route of in-bounds, unoccupied cells) leads from
start to goal, and returns true whenever such a route exists.  In particular it returns
false whenever the body shuts the food off. -/
theorem findPathAStar_false_iff_no_route {pq : OpenList} (hpq : pq.Lawful) {fuel : Nat}
    (hfuel : 5 ^ 128 < fuel) (snake : Nat → SnakeSegment) {len : Nat}
    (hlen : len ≤ SNAKE_CAPACITY) {sX sY : Int} (hs : InGrid sX sY) (dX dY : Int) :
    (findPathAStar pq fuel snake len sX sY dX dY = .ok none ↔
        ¬∃ cells, ValidPath snake len (sX, sY) (dX, dY) cells)
      ∧ ((∃ cells, ValidPath snake len (sX, sY) (dX, dY) cells) →
        ∃ path, findPathAStar pq fuel snake len sX sY dX dY = .ok (some path)) := by
  obtain ⟨r, hr⟩ := findPathAStar_total hpq hfuel snake hlen hs dX dY
  obtain ⟨hsome, hnone⟩ := findPathAStar_spec hpq fuel snake len sX sY dX dY r hr
  have hroute_of_some : ∀ path, r = some path →
      ∃ cells, ValidPath snake len (sX, sY) (dX, dY) cells := by
    intro path hp
    obtain ⟨n, hgood, hx, hy, -, -⟩ := hsome path hp
    have := hgood.1.path.2.1
    rw [hx, hy] at this
    exact ⟨_, this⟩
  refine ⟨⟨?_, ?_⟩, ?_⟩
  · intro h
    rw [hr] at h
    have hrn : r = none := by injection h
    rintro ⟨cells, hc⟩
    exact hnone hrn _ hc.reach
  · intro hno
    cases r with
    | none => exact hr
    | some path => exact absurd (hroute_of_some path rfl) hno
  · rintro ⟨cells, hc⟩
    cases r with
    | none => exact absurd hc.reach (hnone rfl _)
    | some path => exact ⟨path, hr⟩

/-- Witness of C2: the head `(2,0)` of the curled snake is shut in, so the food at
`(5,5)` is unreachable and the search returns false. -/
theorem findPathAStar_false_iff_no_route_witness :
    5 ^ 128 < SEARCH_FUEL ∧ 6 ≤ SNAKE_CAPACITY ∧ InGrid 2 0
      ∧ findPathAStar listQueue SEARCH_FUEL curledSegments 6 2 0 5 5 = .ok none
      ∧ ((findPathAStar listQueue SEARCH_FUEL curledSegments 6 2 0 5 5 = .ok none ↔
          ¬∃ cells, ValidPath curledSegments 6 (2, 0) (5, 5) cells)
        ∧ ((∃ cells, ValidPath curledSegments 6 (2, 0) (5, 5) cells) →
          ∃ path, findPathAStar listQueue SEARCH_FUEL curledSegments 6 2 0 5 5
            = .ok (some path))) :=
  ⟨search_fuel_enough, by decide, by decide, by decide,
    findPathAStar_false_iff_no_route listQueue_lawful search_fuel_enough curledSegments
      (by decide) (by decide) 5 5⟩

/-- The cells of a returned path, read from the last pushed to the first pushed, form a
valid path from start to goal, and all but the start are in bounds and pass `isValidPos`. -/
theorem path_cells_valid {pq : OpenList} (hpq : pq.Lawful) (fuel : Nat)
    (snake : Nat → SnakeSegment) (len : Nat) (sX sY dX dY : Int) (path : List Node)
    (hfound : findPathAStar pq fuel snake len sX sY dX dY = .ok (some path)) :
    ValidPath snake len (sX, sY) (dX, dY) (path.map Node.cell).reverse
      ∧ ∀ c ∈ (path.map Node.cell).dropLast, InGrid c.1 c.2 ∧ Passes snake len c.1 c.2 := by
  obtain ⟨n, hgood, hx, hy, rfl, -⟩ :=
    (findPathAStar_spec hpq fuel snake len sX sY dX dY _ hfound).1 path rfl
  obtain ⟨-, hvp, hall⟩ := hgood.1.path
  rw [hx, hy] at hvp
  refine ⟨?_, ?_⟩
  · simpa [reconstruct, Node.cell, hx, hy] using hvp
  · simpa [reconstruct, Node.cell] using hall

/-- C3: whenever `findPathAStar` returns true, the cells it puts in `path`, read from
the last pushed to the first pushed, form a walk in the grid graph from start to goal:
the end cells are start and goal, consecutive cells differ by one unit step, and every
cell other than the start (every entry of `path` but the last pushed) is in bounds and
passes `isValidPos` against the snake body. -/
theorem findPathAStar_walk {pq : OpenList} (hpq : pq.Lawful) (fuel : Nat)
    (snake : Nat → SnakeSegment) (len : Nat) (sX sY dX dY : Int) (path : List Node)
    (hfound : findPathAStar pq fuel snake len sX sY dX dY = .ok (some path)) :
    ValidPath snake len (sX, sY) (dX, dY) (path.map Node.cell).reverse
      ∧ ∀ c ∈ (path.map Node.cell).dropLast, InGrid c.1 c.2 ∧ Passes snake len c.1 c.2 :=
  path_cells_valid hpq fuel snake len sX sY dX dY path hfound

/-- Witness of C3 on the scenario of the specification. -/
theorem findPathAStar_walk_witness :
    findPathAStar listQueue SEARCH_FUEL twoSegments 2 3 3 5 3 = .ok (some scenarioPath)
      ∧ ValidPath twoSegments 2 (3, 3) (5, 3) (scenarioPath.map Node.cell).reverse
      ∧ ∀ c ∈ (scenarioPath.map Node.cell).dropLast,
          InGrid c.1 c.2 ∧ Passes twoSegments 2 c.1 c.2 :=
  ⟨by decide,
    findPathAStar_walk listQueue_lawful SEARCH_FUEL twoSegments 2 3 3 5 3 scenarioPath
      (by decide)⟩

/-! ## The tick -/

theorem shiftBody_eq : ∀ (k : Nat) (snake : Nat → SnakeSegment), k < SNAKE_CAPACITY →
    shiftBody snake k = .ok (fun j => if 1 ≤ j ∧ j ≤ k then snake (j - 1) else snake j) := by
  intro k
  induction k with
  | zero =>
    intro snake _
    simp only [shiftBody]
    congr 1
    funext j
    rw [if_neg (by omega)]
  | succ k ih =>
    intro snake hk
    simp only [shiftBody]
    rw [if_pos hk, ih _ (by omega)]
    congr 1
    funext j
    simp only [writeSnake]
    split_ifs <;> first | rfl | (exfalso; omega) | (congr 1; omega)

/-- The apple loop either runs off the tape or stops at a cell that passes `isValidPos`;
with the body inside the array it never leaves the array. -/
theorem newAppleLoop_spec (snake : Nat → SnakeSegment) {len : Nat}
    (hlen : len ≤ SNAKE_CAPACITY) : ∀ (n : Nat) (tape : List Int), tape.length ≤ n →
      newAppleLoop snake len tape = .error .noRandom
        ∨ ∃ a b rest, newAppleLoop snake len tape = .ok ((a, b), rest) ∧ Passes snake len a b := by
  intro n
  induction n using Nat.strong_induction_on with
  | _ n ih =>
    intro tape hn
    match tape, hn with
    | [], _ => exact Or.inl rfl
    | [_], _ => exact Or.inl rfl
    | a :: b :: rest, hn =>
      simp only [newAppleLoop]
      obtain ⟨v, hv⟩ := isValidPos_total snake hlen a b
      rw [hv]
      cases v with
      | true => exact Or.inr ⟨a, b, rest, rfl, hv⟩
      | false =>
        simp only [List.length_cons] at hn
        exact ih rest.length (by omega) rest (le_refl _)

theorem newApple_spec (s : Game) (hlen : s.snake_length ≤ SNAKE_CAPACITY) :
    newApple s = .error .noRandom
      ∨ ∃ a b rest, newApple s = .ok { s with apple := (a, b), random := rest }
          ∧ Passes s.snake s.snake_length a b := by
  unfold newApple
  rcases newAppleLoop_spec s.snake hlen _ s.random (le_refl _) with h | ⟨a, b, rest, h, hp⟩
  · rw [h]
    exact Or.inl rfl
  · rw [h]
    exact Or.inr ⟨a, b, rest, rfl, hp⟩

/-- A tick whose new head fails `isValidPos` only records the game over. -/
theorem moveSnake_of_blocked {pq : OpenList} {s : Game} {d : Direction} (now : Nat)
    (hd : steer pq s = .ok d)
    (hv : isValidPos s.snake s.snake_length ((s.snake 0).x + (DIRECTIONS d).1)
      ((s.snake 0).y + (DIRECTIONS d).2) = .ok false) :
    moveSnake pq s now = .ok { s with direction := d, gameOver := true, gameOverTime := now } := by
  simp only [moveSnake, hd, hv]

/-- A tick whose new head passes `isValidPos` shifts the body, writes the head, and
grows when the head is on the food. -/
theorem moveSnake_of_free {pq : OpenList} {s : Game} {d : Direction} (now : Nat)
    (hd : steer pq s = .ok d)
    (hv : Passes s.snake s.snake_length ((s.snake 0).x + (DIRECTIONS d).1)
      ((s.snake 0).y + (DIRECTIONS d).2)) :
    moveSnake pq s now =
      if (s.snake 0).x + (DIRECTIONS d).1 = s.apple.1 ∧ (s.snake 0).y + (DIRECTIONS d).2 = s.apple.2
      then newApple (grown s d)
      else .ok (moved s d) := by
  have hv1 : isValidPos s.snake s.snake_length ((s.snake 0).x + (DIRECTIONS d).1)
      ((s.snake 0).y + (DIRECTIONS d).2) = .ok true := hv
  have hlen : s.snake_length - 1 < SNAKE_CAPACITY := by
    by_cases h0 : s.snake_length = 0
    · rw [h0]; decide
    · have := ((passes_iff _ _ _ _).mp hv).2 (s.snake_length - 1) (by omega)
      exact this.1
  simp only [moveSnake, hd, hv1, shiftBody_eq _ _ hlen, writeSnake, if_true, grown, moved]

/-- Whatever a completed tick does, the direction it leaves is the one `steer` chose. -/
theorem moveSnake_direction {pq : OpenList} {s s1 : Game} {d : Direction} {now : Nat}
    (hd : steer pq s = .ok d) (h : moveSnake pq s now = .ok s1) : s1.direction = d := by
  cases hv : isValidPos s.snake s.snake_length ((s.snake 0).x + (DIRECTIONS d).1)
      ((s.snake 0).y + (DIRECTIONS d).2) with
  | error e => simp [moveSnake, hd, hv] at h
  | ok v =>
    cases v with
    | false =>
      rw [moveSnake_of_blocked now hd hv] at h
      injection h with h
      rw [← h]
    | true =>
      rw [moveSnake_of_free now hd hv] at h
      split_ifs at h
      · unfold newApple at h
        split at h
        · cases h
        · injection h with h
          rw [← h]
          rfl
      · injection h with h
        rw [← h]
        rfl

/-! ## Claims about `moveSnake` and `resetGame` -/

/-- The direction chosen from the cell `(nx, ny)` that follows the head: the `if` chain of
lines 172–175 picks the direction whose delta leads from the head to that cell. -/
theorem steer_of_found {pq : OpenList} {s : Game} {path : List Node} {back : Node}
    (hfound : findPathAStar pq SEARCH_FUEL s.snake s.snake_length (s.snake 0).x (s.snake 0).y
      s.apple.1 s.apple.2 = .ok (some path))
    (hback : path.getLast? = some back) :
    steer pq s = .ok
      (if ((path.dropLast.getLast?).getD back).x - (s.snake 0).x = 1
          ∧ ((path.dropLast.getLast?).getD back).y - (s.snake 0).y = 0 then .RIGHT
       else if ((path.dropLast.getLast?).getD back).x - (s.snake 0).x = -1
          ∧ ((path.dropLast.getLast?).getD back).y - (s.snake 0).y = 0 then .LEFT
       else if ((path.dropLast.getLast?).getD back).x - (s.snake 0).x = 0
          ∧ ((path.dropLast.getLast?).getD back).y - (s.snake 0).y = 1 then .DOWN
       else if ((path.dropLast.getLast?).getD back).x - (s.snake 0).x = 0
          ∧ ((path.dropLast.getLast?).getD back).y - (s.snake 0).y = -1 then .UP
       else s.direction) := by
  simp only [steer, hfound, hback]
  split_ifs <;> rfl

/-- C4: in `moveSnake` (on a well-formed state, with any lawful queue) the direction used
for the tick is the value `d` that `steer` computes, and every completed tick leaves it in
`direction`.  When a path from the head to the food is found and has a second cell
(`path` ends `…, second, first` in push order, `first` being the head's own node), then
head + delta(d) is that second cell; when the path has a single cell, or no path is found,
`d` is the facing direction unchanged. -/
theorem steer_spec {pq : OpenList} (hpq : pq.Lawful) (s : Game) (hwf : WellFormed s) :
    ∃ d, steer pq s = .ok d
      ∧ (∀ now s1, moveSnake pq s now = .ok s1 → s1.direction = d)
      ∧ (∀ path, findPathAStar pq SEARCH_FUEL s.snake s.snake_length (s.snake 0).x
            (s.snake 0).y s.apple.1 s.apple.2 = .ok (some path) →
          (∀ pre second first, path = pre ++ [second, first] →
            ((s.snake 0).x + (DIRECTIONS d).1, (s.snake 0).y + (DIRECTIONS d).2) = second.cell)
          ∧ (path.length ≤ 1 → d = s.direction))
      ∧ (findPathAStar pq SEARCH_FUEL s.snake s.snake_length (s.snake 0).x (s.snake 0).y
            s.apple.1 s.apple.2 = .ok none → d = s.direction) := by
  obtain ⟨r, hr⟩ := findPathAStar_total hpq search_fuel_enough s.snake hwf.1 hwf.2
    s.apple.1 s.apple.2
  cases r with
  | none =>
    have hd : steer pq s = .ok s.direction := by simp only [steer, hr]
    refine ⟨s.direction, hd, fun now s1 h => moveSnake_direction hd h, ?_, fun _ => rfl⟩
    intro path hp
    rw [hr] at hp
    cases hp
  | some path =>
    obtain ⟨⟨hhead, -, hchain⟩, -⟩ := path_cells_valid hpq _ _ _ _ _ _ _ path hr
    rcases List.eq_nil_or_concat path with hnil | ⟨L, first, hL⟩
    · rw [hnil] at hhead
      cases hhead
    · rw [List.concat_eq_append] at hL
      subst hL
      have hfirst : first.cell = ((s.snake 0).x, (s.snake 0).y) := by
        simpa using hhead
      have hfx : first.x = (s.snake 0).x := congrArg Prod.fst hfirst
      have hfy : first.y = (s.snake 0).y := congrArg Prod.snd hfirst
      have hback : (L ++ [first]).getLast? = some first := by simp
      have hsteer := steer_of_found hr hback
      rcases List.eq_nil_or_concat L with hnil | ⟨L1, second, hL1⟩
      · subst hnil
        simp only [List.nil_append, List.dropLast_single, List.getLast?_nil, Option.getD_none,
          hfx, hfy, sub_self] at hsteer
        have hd : steer pq s = .ok s.direction := by
          rw [hsteer]
          simp
        refine ⟨s.direction, hd, fun now s1 h => moveSnake_direction hd h, ?_, fun _ => rfl⟩
        intro path hp
        rw [hr] at hp
        injection hp with hp
        injection hp with hp
        subst hp
        refine ⟨?_, fun _ => rfl⟩
        intro pre second first1 he
        have := congrArg List.length he
        simp at this
      · rw [List.concat_eq_append] at hL1
        subst hL1
        have hstep : ValidStep s.snake s.snake_length first.cell second.cell := by
          simp only [List.map_append, List.map_cons, List.map_nil, List.reverse_append,
            List.reverse_cons, List.reverse_nil, List.nil_append, List.cons_append,
            List.singleton_append] at hchain
          exact (List.chain'_cons.mp hchain).1
        obtain ⟨⟨d0, -, hd0⟩, -⟩ := hstep
        rw [hfirst] at hd0
        have hsx : second.x = (s.snake 0).x + (DIRECTIONS d0).1 := congrArg Prod.fst hd0
        have hsy : second.y = (s.snake 0).y + (DIRECTIONS d0).2 := congrArg Prod.snd hd0
        have hdrop : ((L1 ++ [second] ++ [first]).dropLast.getLast?).getD first = second := by
          simp
        rw [hdrop, hsx, hsy] at hsteer
        have hd : steer pq s = .ok d0 := by
          rw [hsteer]
          cases d0 <;> simp [DIRECTIONS]
        refine ⟨d0, hd, fun now s1 h => moveSnake_direction hd h, ?_, ?_⟩
        · intro path hp
          rw [hr] at hp
          injection hp with hp
          injection hp with hp
          subst hp
          refine ⟨?_, ?_⟩
          · intro pre second1 first1 he
            have he2 : L1 ++ [second, first] = pre ++ [second1, first1] := by
              rw [← he]
              simp
            have := List.append_inj' he2 rfl
            obtain ⟨-, h2⟩ := this
            injection h2 with h3 _
            rw [← h3]
            exact hd0.symm
          · intro hlen
            simp at hlen
        · intro hnone
          rw [hr] at hnone
          cases hnone

/-- Witness of C4 on the scenario of the specification: head `(3,3)`, body `(3,2)`, food
`(5,3)`; the path found is `(3,3) → (4,3) → (5,3)` and the direction is `RIGHT`. -/
theorem steer_spec_witness :
    WellFormed scenarioGame
      ∧ findPathAStar listQueue SEARCH_FUEL scenarioGame.snake 2 3 3 5 3 = .ok (some scenarioPath)
      ∧ steer listQueue scenarioGame = .ok .RIGHT
      ∧ ∃ d, steer listQueue scenarioGame = .ok d
        ∧ (∀ now s1, moveSnake listQueue scenarioGame now = .ok s1 → s1.direction = d)
        ∧ (∀ path, findPathAStar listQueue SEARCH_FUEL scenarioGame.snake
              scenarioGame.snake_length (scenarioGame.snake 0).x (scenarioGame.snake 0).y
              scenarioGame.apple.1 scenarioGame.apple.2 = .ok (some path) →
            (∀ pre second first, path = pre ++ [second, first] →
              ((scenarioGame.snake 0).x + (DIRECTIONS d).1,
                (scenarioGame.snake 0).y + (DIRECTIONS d).2) = second.cell)
            ∧ (path.length ≤ 1 → d = scenarioGame.direction))
        ∧ (findPathAStar listQueue SEARCH_FUEL scenarioGame.snake scenarioGame.snake_length
              (scenarioGame.snake 0).x (scenarioGame.snake 0).y
              scenarioGame.apple.1 scenarioGame.apple.2 = .ok none →
            d = scenarioGame.direction) :=
  ⟨⟨by decide, by decide⟩, by decide, by decide,
    steer_spec listQueue_lawful scenarioGame ⟨by decide, by decide⟩⟩

/-- C5: on every tick whose body fits the array, if the computed new head (the head plus
the delta of the direction `d` that `steer` chose) is out of bounds or equals a body cell
other than the tail, then `moveSnake` sets `gameOver`, records `now` in `gameOverTime`, and
leaves every segment, `snake_length`, `score`, `speed` and the apple as they were. -/
theorem moveSnake_collision {pq : OpenList} (s : Game) (now : Nat) (d : Direction)
    (hlen : s.snake_length ≤ SNAKE_CAPACITY) (hd : steer pq s = .ok d)
    (hbad : ¬InGrid ((s.snake 0).x + (DIRECTIONS d).1) ((s.snake 0).y + (DIRECTIONS d).2)
      ∨ ∃ i, i + 1 < s.snake_length ∧ (s.snake i).x = (s.snake 0).x + (DIRECTIONS d).1
          ∧ (s.snake i).y = (s.snake 0).y + (DIRECTIONS d).2) :
    ∃ s1, moveSnake pq s now = .ok s1 ∧ s1.gameOver = true ∧ s1.gameOverTime = now
      ∧ s1.snake = s.snake ∧ s1.snake_length = s.snake_length ∧ s1.score = s.score
      ∧ s1.speed = s.speed ∧ s1.apple = s.apple := by
  have hv : isValidPos s.snake s.snake_length ((s.snake 0).x + (DIRECTIONS d).1)
      ((s.snake 0).y + (DIRECTIONS d).2) = .ok false := by
    rw [isValidPos_false_iff s.snake hlen]
    rcases hbad with h | ⟨i, hi, hx, hy⟩
    · exact Or.inl h
    · exact Or.inr ⟨i, by omega, hx, hy⟩
  exact ⟨_, moveSnake_of_blocked now hd hv, rfl, rfl, rfl, rfl, rfl, rfl, rfl⟩

/-- Witness of C5: the cornered snake keeps heading left (no path to the food exists) and
leaves the grid at `(-1, 0)`. -/
theorem moveSnake_collision_witness :
    corneredGame.snake_length ≤ SNAKE_CAPACITY ∧ steer listQueue corneredGame = .ok .LEFT
      ∧ ¬InGrid ((corneredGame.snake 0).x + (DIRECTIONS .LEFT).1)
          ((corneredGame.snake 0).y + (DIRECTIONS .LEFT).2)
      ∧ ∃ s1, moveSnake listQueue corneredGame 42 = .ok s1 ∧ s1.gameOver = true
        ∧ s1.gameOverTime = 42 ∧ s1.snake = corneredGame.snake
        ∧ s1.snake_length = corneredGame.snake_length ∧ s1.score = corneredGame.score
        ∧ s1.speed = corneredGame.speed ∧ s1.apple = corneredGame.apple :=
  ⟨by decide, by decide, by decide,
    moveSnake_collision corneredGame 42 .LEFT (by decide) (by decide) (Or.inl (by decide))⟩

/-- C6: on every tick that does not collide, whose new head equals the food and whose
`snake_length` is below the capacity 100, either the random source never offers a free
cell (the tape runs out), or `moveSnake` completes with `snake_length` increased by
exactly 1, `score` increased by exactly 1, `speed` equal to `max MIN_SPEED (speed / 5)`, and
a new food cell that is in bounds and passes `isValidPos` against the grown body. -/
theorem moveSnake_eats {pq : OpenList} (s : Game) (now : Nat) (d : Direction)
    (hd : steer pq s = .ok d) (hlen : s.snake_length < SNAKE_CAPACITY)
    (hv : Passes s.snake s.snake_length ((s.snake 0).x + (DIRECTIONS d).1)
      ((s.snake 0).y + (DIRECTIONS d).2))
    (heat : (s.snake 0).x + (DIRECTIONS d).1 = s.apple.1
      ∧ (s.snake 0).y + (DIRECTIONS d).2 = s.apple.2) :
    moveSnake pq s now = .error .noRandom
      ∨ ∃ s1, moveSnake pq s now = .ok s1 ∧ s1.snake_length = s.snake_length + 1
        ∧ s1.score = s.score + 1 ∧ s1.speed = max MIN_SPEED (s.speed / 5)
        ∧ InGrid s1.apple.1 s1.apple.2
        ∧ Passes s1.snake s1.snake_length s1.apple.1 s1.apple.2 := by
  rw [moveSnake_of_free now hd hv, if_pos heat]
  rcases newApple_spec (grown s d) (show s.snake_length + 1 ≤ SNAKE_CAPACITY from hlen)
    with h | ⟨a, b, rest, h, hp⟩
  · exact Or.inl h
  · exact Or.inr ⟨_, h, rfl, rfl, rfl, hp.inGrid, hp⟩

/-- Witness of C6, the second scenario of the specification: snake `(0,0),(0,1)`, food
`(1,0)`, interval 500 give score 1, interval 100, length 3, and the new food `(7,4)`. -/
theorem moveSnake_eats_witness :
    steer listQueue eatingGame = .ok .RIGHT
      ∧ eatingGame.snake_length < SNAKE_CAPACITY
      ∧ Passes eatingGame.snake eatingGame.snake_length 1 0
      ∧ eatingGame.apple = (1, 0) ∧ eatingGame.speed = 500
      ∧ (moveSnake listQueue eatingGame 0).map
          (fun s => (s.score, s.snake_length, s.apple, s.snake 0, s.snake 1)) =
          .ok (1, 3, (7, 4), ⟨1, 0⟩, ⟨0, 0⟩)
      ∧ (∀ s1, moveSnake listQueue eatingGame 0 = .ok s1 → s1.speed = 100)
      ∧ (moveSnake listQueue eatingGame 0 = .error .noRandom
        ∨ ∃ s1, moveSnake listQueue eatingGame 0 = .ok s1
          ∧ s1.snake_length = eatingGame.snake_length + 1
          ∧ s1.score = eatingGame.score + 1
          ∧ s1.speed = max MIN_SPEED (eatingGame.speed / 5)
          ∧ InGrid s1.apple.1 s1.apple.2
          ∧ Passes s1.snake s1.snake_length s1.apple.1 s1.apple.2) := by
  have h := @moveSnake_eats listQueue eatingGame 0 .RIGHT (by decide) (by decide)
    (by decide) ⟨by decide, by decide⟩
  refine ⟨by decide, by decide, by decide, rfl, rfl, by decide, ?_, h⟩
  intro s1 hs1
  rcases h with h | ⟨s2, h2, -, -, hsp, -⟩
  · rw [h] at hs1
    cases hs1
  · rw [h2] at hs1
    injection hs1 with hs1
    rw [← hs1, hsp]
    norm_num [MIN_SPEED, eatingGame, initialGame]

/-- C7: from every prior state, `resetGame` either finds the random source without a free
cell (the tape runs out), or yields `snake_length` 2, `score` 0, `speed` 500, `gameOver`
false, the body `(3,3),(3,2)`, and a food cell that is in bounds and passes `isValidPos`
against that two-segment body. -/
theorem resetGame_spec (s : Game) :
    resetGame s = .error .noRandom
      ∨ ∃ s1, resetGame s = .ok s1 ∧ s1.snake_length = 2 ∧ s1.score = 0 ∧ s1.speed = 500
        ∧ s1.gameOver = false ∧ s1.snake 0 = ⟨3, 3⟩ ∧ s1.snake 1 = ⟨3, 2⟩
        ∧ InGrid s1.apple.1 s1.apple.2 ∧ Passes s1.snake 2 s1.apple.1 s1.apple.2 := by
  have he : resetGame s = match newApple (freshGame s) with
      | .error e => .error e
      | .ok s4 => .ok { s4 with gameOver := false } := rfl
  rw [he]
  rcases newApple_spec (freshGame s) (show 2 ≤ SNAKE_CAPACITY by decide)
    with h | ⟨a, b, rest, h, hp⟩
  · rw [h]
    exact Or.inl rfl
  · rw [h]
    exact Or.inr ⟨_, rfl, rfl, rfl, rfl, rfl, rfl, rfl, hp.inGrid, hp⟩

/-- C8 fails on the code.  Program start (array zero-initialised), `resetGame` with the
food drawn at `(0,0)`, six ticks: the head reaches the food at `(0,0)`, the length grows
to 3, and the new tail `snake[2]` is the never-written slot `(0,0)`, equal to the head
`snake[0]`, while `gameOver` is still false. -/
theorem firstGame_overlap :
    (firstGame 6).map (fun s => (s.gameOver, s.snake_length, s.snake 0, s.snake 1, s.snake 2)) =
      .ok (false, 3, ⟨0, 0⟩, ⟨1, 0⟩, ⟨0, 0⟩) := by
  decide

/-- C9 fails on the code.  The curled snake heads right; the new head `(3,0)` is the cell
of the tail `snake[5]`, it is not the food, and the tick sets `gameOver` and does not
advance the snake. -/
theorem curledGame_tail_is_collision :
    steer listQueue curledGame = .ok .RIGHT
      ∧ ((curledGame.snake 0).x + (DIRECTIONS .RIGHT).1,
          (curledGame.snake 0).y + (DIRECTIONS .RIGHT).2) = (3, 0)
      ∧ curledGame.snake (curledGame.snake_length - 1) = ⟨3, 0⟩
      ∧ curledGame.apple ≠ (3, 0)
      ∧ (moveSnake listQueue curledGame 77).map
          (fun s => (s.gameOver, s.gameOverTime, s.snake_length, s.snake 0, s.snake 5)) =
          .ok (true, 77, 6, ⟨2, 0⟩, ⟨3, 0⟩) := by
  decide

/-- C9 as amended: a new head that lands on the cell of the tail (the last body segment) is
a collision like any other body cell: `moveSnake` sets `gameOver`, records the time, and
leaves the snake where it was. -/
theorem moveSnake_tail_collision {pq : OpenList} (s : Game) (now : Nat) (d : Direction)
    (hlen : s.snake_length ≤ SNAKE_CAPACITY) (hpos : 0 < s.snake_length)
    (hd : steer pq s = .ok d)
    (htail : (s.snake (s.snake_length - 1)).x = (s.snake 0).x + (DIRECTIONS d).1
      ∧ (s.snake (s.snake_length - 1)).y = (s.snake 0).y + (DIRECTIONS d).2) :
    ∃ s1, moveSnake pq s now = .ok s1 ∧ s1.gameOver = true ∧ s1.gameOverTime = now
      ∧ s1.snake = s.snake ∧ s1.snake_length = s.snake_length := by
  have hv : isValidPos s.snake s.snake_length ((s.snake 0).x + (DIRECTIONS d).1)
      ((s.snake 0).y + (DIRECTIONS d).2) = .ok false := by
    rw [isValidPos_false_iff s.snake hlen]
    exact Or.inr ⟨s.snake_length - 1, by omega, htail.1, htail.2⟩
  exact ⟨_, moveSnake_of_blocked now hd hv, rfl, rfl, rfl, rfl⟩

/-- Witness of C9 as amended, on the curled snake. -/
theorem moveSnake_tail_collision_witness :
    curledGame.snake_length ≤ SNAKE_CAPACITY ∧ 0 < curledGame.snake_length
      ∧ steer listQueue curledGame = .ok .RIGHT
      ∧ ∃ s1, moveSnake listQueue curledGame 77 = .ok s1 ∧ s1.gameOver = true
        ∧ s1.gameOverTime = 77 ∧ s1.snake = curledGame.snake
        ∧ s1.snake_length = curledGame.snake_length :=
  ⟨by decide, by decide, by decide,
    moveSnake_tail_collision curledGame 77 .RIGHT (by decide) (by decide) (by decide)
      ⟨by decide, by decide⟩⟩

/-- C10: on every tick that does not collide and does not reach the food, the new head is
the old head plus the unit delta of the direction `d` in use, every other segment `i`
(`1 ≤ i < snake_length`) takes the pre-tick position of segment `i - 1`, the slots from
`snake_length` on are untouched, and `snake_length`, `score`, `speed`, the apple and
`gameOver` are unchanged. -/
theorem moveSnake_translates {pq : OpenList} (s : Game) (now : Nat) (d : Direction)
    (hd : steer pq s = .ok d)
    (hv : Passes s.snake s.snake_length ((s.snake 0).x + (DIRECTIONS d).1)
      ((s.snake 0).y + (DIRECTIONS d).2))
    (hne : ¬((s.snake 0).x + (DIRECTIONS d).1 = s.apple.1
      ∧ (s.snake 0).y + (DIRECTIONS d).2 = s.apple.2)) :
    ∃ s1, moveSnake pq s now = .ok s1
      ∧ s1.snake 0 = ⟨(s.snake 0).x + (DIRECTIONS d).1, (s.snake 0).y + (DIRECTIONS d).2⟩
      ∧ (∀ i, 1 ≤ i → i < s.snake_length → s1.snake i = s.snake (i - 1))
      ∧ (∀ i, 1 ≤ i → s.snake_length ≤ i → s1.snake i = s.snake i)
      ∧ s1.snake_length = s.snake_length ∧ s1.score = s.score ∧ s1.speed = s.speed
      ∧ s1.apple = s.apple ∧ s1.gameOver = s.gameOver := by
  rw [moveSnake_of_free now hd hv, if_neg hne]
  refine ⟨_, rfl, ?_, ?_, ?_, rfl, rfl, rfl, rfl, rfl⟩
  · simp [moved, writeSnake]
  · intro i h1 h2
    simp only [moved, writeSnake]
    rw [if_neg (by omega), if_pos ⟨h1, by omega⟩]
  · intro i h1 h2
    simp only [moved, writeSnake]
    rw [if_neg (by omega), if_neg (by omega)]

/-- Witness of C10 on the scenario of the specification: head `(3,3)`, body `(3,2)`, food
`(5,3)` give head `(4,3)`, second segment `(3,3)`, no collision, no growth. -/
theorem moveSnake_translates_witness :
    steer listQueue scenarioGame = .ok .RIGHT
      ∧ Passes scenarioGame.snake scenarioGame.snake_length 4 3
      ∧ (moveSnake listQueue scenarioGame 0).map
          (fun s => (s.snake 0, s.snake 1, s.snake_length, s.gameOver, s.score)) =
          .ok (⟨4, 3⟩, ⟨3, 3⟩, 2, false, 0)
      ∧ ∃ s1, moveSnake listQueue scenarioGame 0 = .ok s1
        ∧ s1.snake 0 = ⟨(scenarioGame.snake 0).x + (DIRECTIONS .RIGHT).1,
            (scenarioGame.snake 0).y + (DIRECTIONS .RIGHT).2⟩
        ∧ (∀ i, 1 ≤ i → i < scenarioGame.snake_length →
            s1.snake i = scenarioGame.snake (i - 1))
        ∧ (∀ i, 1 ≤ i → scenarioGame.snake_length ≤ i → s1.snake i = scenarioGame.snake i)
        ∧ s1.snake_length = scenarioGame.snake_length ∧ s1.score = scenarioGame.score
        ∧ s1.speed = scenarioGame.speed ∧ s1.apple = scenarioGame.apple
        ∧ s1.gameOver = scenarioGame.gameOver :=
  ⟨by decide, by decide, by decide,
    moveSnake_translates scenarioGame 0 .RIGHT (by decide) (by decide) (by decide)⟩

/-! ## Further claims about `findPathAStar` -/

/-- C11 fails on the code.  In the scenario of the specification the first element of
`path` is the goal `(5,3)` and the last is the start `(3,3)`: nodes are pushed while walking
the parent pointers back from the goal. -/
theorem scenarioPath_starts_at_goal :
    findPathAStar listQueue SEARCH_FUEL twoSegments 2 3 3 5 3 = .ok (some scenarioPath)
      ∧ scenarioPath.head?.map Node.cell = some (5, 3)
      ∧ scenarioPath.head?.map Node.cell ≠ some (3, 3)
      ∧ scenarioPath.getLast?.map Node.cell = some (3, 3)
      ∧ scenarioPath.getLast?.map Node.cell ≠ some (5, 3) := by
  decide

/-- C11 as amended: when `findPathAStar` reaches the goal, `path` lists the cells from goal
to start inclusive, in reverse traversal order: its first element is the goal, its last
element is the start, and read backwards it is a valid path from start to goal. -/
theorem findPathAStar_goal_first {pq : OpenList} (hpq : pq.Lawful) (fuel : Nat)
    (snake : Nat → SnakeSegment) (len : Nat) (sX sY dX dY : Int) (path : List Node)
    (hfound : findPathAStar pq fuel snake len sX sY dX dY = .ok (some path)) :
    path.head?.map Node.cell = some (dX, dY)
      ∧ path.getLast?.map Node.cell = some (sX, sY)
      ∧ ValidPath snake len (sX, sY) (dX, dY) (path.map Node.cell).reverse := by
  obtain ⟨hv, -⟩ := path_cells_valid hpq fuel snake len sX sY dX dY path hfound
  have hh := hv.1
  have hl := hv.2.1
  refine ⟨?_, ?_, hv⟩
  · rw [List.getLast?_reverse, List.head?_map] at hl
    exact hl
  · rw [List.head?_reverse, List.getLast?_map] at hh
    exact hh

/-- Witness of C11 as amended, on the scenario of the specification. -/
theorem findPathAStar_goal_first_witness :
    findPathAStar listQueue SEARCH_FUEL twoSegments 2 3 3 5 3 = .ok (some scenarioPath)
      ∧ scenarioPath.head?.map Node.cell = some (5, 3)
      ∧ scenarioPath.getLast?.map Node.cell = some (3, 3)
      ∧ ValidPath twoSegments 2 (3, 3) (5, 3) (scenarioPath.map Node.cell).reverse :=
  ⟨by decide,
    findPathAStar_goal_first listQueue_lawful SEARCH_FUEL twoSegments 2 3 3 5 3 scenarioPath
      (by decide)⟩

theorem absInt_eq_abs (a : Int) : absInt a = |a| := by
  unfold absInt
  split_ifs with h
  · rw [abs_of_neg h]
  · rw [abs_of_nonneg (not_lt.mp h)]

theorem heuristic_eq_abs (x1 y1 x2 y2 : Int) :
    heuristic x1 y1 x2 y2 = |x1 - x2| + |y1 - y2| := by
  unfold heuristic
  rw [absInt_eq_abs, absInt_eq_abs]

theorem heuristic_step_from (sX sY x y : Int) (d : Direction) :
    heuristic sX sY (x + (DIRECTIONS d).1) (y + (DIRECTIONS d).2) ≤ 1 + heuristic sX sY x y := by
  cases d <;> simp only [heuristic, absInt, DIRECTIONS] <;> split_ifs <;> omega

/-- No valid steps reach a cell in fewer steps than its Manhattan distance from the start. -/
theorem reach_ge_manhattan {snake : Nat → SnakeSegment} {len : Nat} {sX sY : Int} {k : Nat}
    {x y : Int} (h : Reach snake len sX sY k x y) : heuristic sX sY x y ≤ (k : Int) := by
  induction h with
  | start => rw [heuristic_self]; exact le_refl _
  | @step k x y d _ _ ih =>
    have := heuristic_step_from sX sY x y d
    push_cast
    omega

theorem reach_step_to {snake : Nat → SnakeSegment} {len : Nat} {sX sY : Int} {k : Nat}
    {x y x2 y2 : Int} (h : Reach snake len sX sY k x y) (d : Direction)
    (hx : x2 = x + (DIRECTIONS d).1) (hy : y2 = y + (DIRECTIONS d).2)
    (hp : Passes snake len x2 y2) : Reach snake len sX sY (k + 1) x2 y2 := by
  subst hx hy
  exact Reach.step d h hp

/-- On a grid where every cell but the start passes `isValidPos`, each cell is reached in
exactly as many valid steps as its Manhattan distance from the start. -/
theorem reach_manhattan {snake : Nat → SnakeSegment} {len : Nat} {sX sY : Int}
    (hs : InGrid sX sY)
    (hfree : ∀ x y, InGrid x y → ¬(x = sX ∧ y = sY) → Passes snake len x y) :
    ∀ (n : Nat) (x y : Int), InGrid x y → heuristic sX sY x y = (n : Int) →
      Reach snake len sX sY n x y := by
  intro n
  induction n with
  | zero =>
    intro x y _ hh
    have hxy : x = sX ∧ y = sY := by
      simp only [heuristic, absInt] at hh
      split_ifs at hh <;> constructor <;> omega
    rw [hxy.1, hxy.2]
    exact Reach.start
  | succ n ih =>
    intro x y hg hh
    have hne : ¬(x = sX ∧ y = sY) := by
      rintro ⟨rfl, rfl⟩
      rw [heuristic_self] at hh
      push_cast at hh
      omega
    have hp := hfree x y hg hne
    obtain ⟨g1, g2, g3, g4⟩ := hg
    obtain ⟨s1, s2, s3, s4⟩ := hs
    push_cast at hh
    by_cases hx1 : sX < x
    · refine reach_step_to (ih (x - 1) y ⟨by omega, by omega, g3, g4⟩ ?_) .RIGHT
        (by simp [DIRECTIONS]) (by simp [DIRECTIONS]) hp
      simp only [heuristic, absInt] at hh ⊢
      split_ifs at hh ⊢ <;> omega
    · by_cases hx2 : x < sX
      · refine reach_step_to (ih (x + 1) y ⟨by omega, by omega, g3, g4⟩ ?_) .LEFT
          (by simp [DIRECTIONS]) (by simp [DIRECTIONS]) hp
        simp only [heuristic, absInt] at hh ⊢
        split_ifs at hh ⊢ <;> omega
      · by_cases hy1 : sY < y
        · refine reach_step_to (ih x (y - 1) ⟨g1, g2, by omega, by omega⟩ ?_) .DOWN
            (by simp [DIRECTIONS]) (by simp [DIRECTIONS]) hp
          simp only [heuristic, absInt] at hh ⊢
          split_ifs at hh ⊢ <;> omega
        · refine reach_step_to (ih x (y + 1) ⟨g1, g2, by omega, by omega⟩ ?_) .UP
            (by simp [DIRECTIONS]) (by simp [DIRECTIONS]) hp
          · simp only [heuristic, absInt] at hh ⊢
            split_ifs at hh ⊢ <;> omega

theorem heuristic_nonneg (x1 y1 x2 y2 : Int) : 0 ≤ heuristic x1 y1 x2 y2 := by
  simp only [heuristic, absInt]
  split_ifs <;> omega

/-- C12: for every in-bounds start and goal on an obstacle-free 16x8 grid (every in-bounds
cell other than the start passes `isValidPos`), `findPathAStar` (any lawful queue, any fuel
above `5 ^ 128`) returns a path whose number of cells is
`1 + |start.x - goal.x| + |start.y - goal.y|`. -/
theorem findPathAStar_manhattan {pq : OpenList} (hpq : pq.Lawful) {fuel : Nat}
    (hfuel : 5 ^ 128 < fuel) (snake : Nat → SnakeSegment) (len : Nat) {sX sY dX dY : Int}
    (hs : InGrid sX sY) (hd : InGrid dX dY)
    (hfree : ∀ x y, InGrid x y → ¬(x = sX ∧ y = sY) → Passes snake len x y) :
    ∃ path, findPathAStar pq fuel snake len sX sY dX dY = .ok (some path)
      ∧ (path.length : Int) = 1 + |sX - dX| + |sY - dY| := by
  have hlen : len ≤ SNAKE_CAPACITY := by
    have hcell : ∃ x y, InGrid x y ∧ ¬(x = sX ∧ y = sY) := by
      by_cases h0 : sX = 0
      · exact ⟨1, 0, by decide, by omega⟩
      · exact ⟨0, 0, by decide, by omega⟩
    obtain ⟨x, y, hg, hne⟩ := hcell
    have hp := ((passes_iff snake len x y).mp (hfree x y hg hne)).2
    by_contra hc
    have := (hp SNAKE_CAPACITY (by omega)).1
    omega
  obtain ⟨m, hm⟩ := Int.eq_ofNat_of_zero_le (heuristic_nonneg sX sY dX dY)
  have hreach := reach_manhattan hs hfree m dX dY hd hm
  obtain ⟨r, hr⟩ := findPathAStar_total hpq hfuel snake hlen hs dX dY
  obtain ⟨hsome, hnone⟩ := findPathAStar_spec hpq fuel snake len sX sY dX dY r hr
  cases r with
  | none => exact absurd hreach (hnone rfl m)
  | some path =>
    obtain ⟨n, hgood, hx, hy, hpath, hopt⟩ := hsome path rfl
    obtain ⟨hg, hvp, -⟩ := hgood.1.path
    rw [hx, hy] at hvp
    have hlow : heuristic sX sY dX dY ≤ ((walkParents n.parent).length : Int) := by
      have := reach_ge_manhattan hvp.reach
      simpa using this
    have hup := hopt m hreach
    refine ⟨path, hr, ?_⟩
    have e : 1 + |sX - dX| + |sY - dY| = 1 + heuristic sX sY dX dY := by
      rw [heuristic_eq_abs]; ring
    rw [e, hpath]
    simp only [reconstruct, List.length_cons]
    push_cast
    omega

/-- Witness of C12: with nothing but the start `(3,3)` occupied, the path to `(5,3)` has
`1 + 2 + 0 = 3` cells. -/
theorem findPathAStar_manhattan_witness :
    5 ^ 128 < SEARCH_FUEL ∧ InGrid 3 3 ∧ InGrid 5 3
      ∧ (∀ x y, InGrid x y → ¬(x = 3 ∧ y = 3) → Passes stackedSegments 2 x y)
      ∧ (findPathAStar listQueue SEARCH_FUEL stackedSegments 2 3 3 5 3).map
          (Option.map (List.map Node.cell)) = .ok (some [(5, 3), (4, 3), (3, 3)])
      ∧ ∃ path, findPathAStar listQueue SEARCH_FUEL stackedSegments 2 3 3 5 3 = .ok (some path)
        ∧ (path.length : Int) = 1 + |(3 : Int) - 5| + |(3 : Int) - 3| := by
  have hfree : ∀ x y, InGrid x y → ¬(x = 3 ∧ y = 3) → Passes stackedSegments 2 x y := by
    intro x y hg hne
    rw [passes_iff]
    refine ⟨hg, fun i hi => ⟨?_, ?_⟩⟩
    · unfold SNAKE_CAPACITY; omega
    · intro h
      exact hne ⟨h.1.symm, h.2.symm⟩
  exact ⟨search_fuel_enough, by decide, by decide, hfree, by decide,
    findPathAStar_manhattan listQueue_lawful search_fuel_enough stackedSegments 2
      (by decide) (by decide) hfree⟩

/-! ## Further claims about the tick -/

/-- At full capacity an eating tick cannot complete: `snake_length` becomes 101 and
`newApple` can only run off the tape or read `snake[100]`. -/
theorem moveSnake_at_capacity {pq : OpenList} (s : Game) (now : Nat) (d : Direction)
    (hd : steer pq s = .ok d) (hlen : s.snake_length = SNAKE_CAPACITY)
    (hv : Passes s.snake s.snake_length ((s.snake 0).x + (DIRECTIONS d).1)
      ((s.snake 0).y + (DIRECTIONS d).2))
    (heat : (s.snake 0).x + (DIRECTIONS d).1 = s.apple.1
      ∧ (s.snake 0).y + (DIRECTIONS d).2 = s.apple.2) :
    moveSnake pq s now = newApple (grown s d)
      ∧ (grown s d).snake_length = SNAKE_CAPACITY + 1
      ∧ ∀ s1, moveSnake pq s now ≠ .ok s1 := by
  have hm : moveSnake pq s now = newApple (grown s d) := by
    rw [moveSnake_of_free now hd hv, if_pos heat]
  refine ⟨hm, by simp [grown, hlen], ?_⟩
  intro s1 h
  rw [hm] at h
  unfold newApple at h
  have key : ∀ (n : Nat) (tape : List Int), tape.length ≤ n → ∀ r,
      newAppleLoop (grown s d).snake (grown s d).snake_length tape ≠ .ok r := by
    intro n
    induction n using Nat.strong_induction_on with
    | _ n ih =>
      intro tape hn r
      match tape, hn with
      | [], _ => simp [newAppleLoop]
      | [_], _ => simp [newAppleLoop]
      | a :: b :: rest, hn =>
        simp only [newAppleLoop]
        cases hv2 : isValidPos (grown s d).snake (grown s d).snake_length a b with
        | error e => simp
        | ok v =>
          cases v with
          | true =>
            exfalso
            have hp := ((passes_iff _ _ _ _).mp hv2).2 SNAKE_CAPACITY (by simp [grown, hlen])
            exact absurd hp.1 (lt_irrefl _)
          | false =>
            simp only [List.length_cons] at hn
            exact ih rest.length (by omega) rest (le_refl _) r
  split at h
  · cases h
  · next apple rest heq => exact key _ _ (le_refl _) _ heq

/-- C13 fails on the code.  With 100 segments, the head at `(3,6)` and the food at `(4,6)`,
the tick moves onto the food and executes `snake_length++`, making the length 101; the
following `newApple()` calls `isValidPos`, which reads `snake[100]`, outside the array. -/
theorem fullGame_overruns :
    fullGame.snake_length = SNAKE_CAPACITY
      ∧ steer listQueue fullGame = .ok .RIGHT
      ∧ Passes fullGame.snake fullGame.snake_length 4 6
      ∧ fullGame.apple = (4, 6)
      ∧ (grown fullGame .RIGHT).snake_length = 101
      ∧ (moveSnake listQueue fullGame 0).map Game.snake_length = .error .outOfBounds := by
  decide

/-- What a completed `newApple` leaves: the state with a new apple that passes `isValidPos`
and a shorter tape. -/
theorem newAppleLoop_ok (snake : Nat → SnakeSegment) (len : Nat) :
    ∀ (n : Nat) (tape : List Int), tape.length ≤ n → ∀ a b rest,
      newAppleLoop snake len tape = .ok ((a, b), rest) → Passes snake len a b := by
  intro n
  induction n using Nat.strong_induction_on with
  | _ n ih =>
    intro tape hn a b rest h
    match tape, hn with
    | [], _ => simp [newAppleLoop] at h
    | [_], _ => simp [newAppleLoop] at h
    | a1 :: b1 :: rest1, hn =>
      simp only [newAppleLoop] at h
      cases hv : isValidPos snake len a1 b1 with
      | error e => rw [hv] at h; cases h
      | ok v =>
        rw [hv] at h
        cases v with
        | true =>
          simp only [Except.ok.injEq, Prod.mk.injEq] at h
          obtain ⟨⟨rfl, rfl⟩, -⟩ := h
          exact hv
        | false =>
          simp only [List.length_cons] at hn
          exact ih rest1.length (by omega) rest1 (le_refl _) a b rest h

theorem newApple_ok {s s1 : Game} (h : newApple s = .ok s1) :
    ∃ a b rest, s1 = { s with apple := (a, b), random := rest }
      ∧ Passes s.snake s.snake_length a b := by
  unfold newApple at h
  split at h
  · cases h
  · next apple rest heq =>
    obtain ⟨a, b⟩ := apple
    injection h with h
    exact ⟨a, b, rest, h.symm, newAppleLoop_ok _ _ _ _ (le_refl _) a b rest heq⟩

theorem resetGame_ok {s0 s : Game} (h : resetGame s0 = .ok s) :
    ∃ a b rest, s = { freshGame s0 with apple := (a, b), random := rest, gameOver := false }
      ∧ Passes (freshGame s0).snake 2 a b := by
  have he : resetGame s0 = match newApple (freshGame s0) with
      | .error e => .error e
      | .ok s4 => .ok { s4 with gameOver := false } := rfl
  rw [he] at h
  cases hn : newApple (freshGame s0) with
  | error e => rw [hn] at h; cases h
  | ok s4 =>
    rw [hn] at h
    injection h with h
    obtain ⟨a, b, rest, rfl, hp⟩ := newApple_ok hn
    exact ⟨a, b, rest, h.symm, hp⟩

/-- The three ways a tick completes: a collision, a plain move, or a move onto the food
followed by a completed `newApple`. -/
theorem moveSnake_cases {pq : OpenList} {s s1 : Game} {now : Nat}
    (h : moveSnake pq s now = .ok s1) :
    ∃ d, steer pq s = .ok d ∧
      ((isValidPos s.snake s.snake_length ((s.snake 0).x + (DIRECTIONS d).1)
            ((s.snake 0).y + (DIRECTIONS d).2) = .ok false
          ∧ s1 = { s with direction := d, gameOver := true, gameOverTime := now })
        ∨ (Passes s.snake s.snake_length ((s.snake 0).x + (DIRECTIONS d).1)
            ((s.snake 0).y + (DIRECTIONS d).2)
          ∧ ¬((s.snake 0).x + (DIRECTIONS d).1 = s.apple.1
            ∧ (s.snake 0).y + (DIRECTIONS d).2 = s.apple.2)
          ∧ s1 = moved s d)
        ∨ (Passes s.snake s.snake_length ((s.snake 0).x + (DIRECTIONS d).1)
            ((s.snake 0).y + (DIRECTIONS d).2)
          ∧ ((s.snake 0).x + (DIRECTIONS d).1 = s.apple.1
            ∧ (s.snake 0).y + (DIRECTIONS d).2 = s.apple.2)
          ∧ newApple (grown s d) = .ok s1)) := by
  cases hd : steer pq s with
  | error e => simp [moveSnake, hd] at h
  | ok d =>
    refine ⟨d, rfl, ?_⟩
    cases hv : isValidPos s.snake s.snake_length ((s.snake 0).x + (DIRECTIONS d).1)
        ((s.snake 0).y + (DIRECTIONS d).2) with
    | error e => simp [moveSnake, hd, hv] at h
    | ok v =>
      cases v with
      | false =>
        rw [moveSnake_of_blocked now hd hv] at h
        injection h with h
        exact Or.inl ⟨rfl, h.symm⟩
      | true =>
        rw [moveSnake_of_free now hd hv] at h
        by_cases he : (s.snake 0).x + (DIRECTIONS d).1 = s.apple.1
            ∧ (s.snake 0).y + (DIRECTIONS d).2 = s.apple.2
        · rw [if_pos he] at h
          exact Or.inr (Or.inr ⟨hv, he, h⟩)
        · rw [if_neg he] at h
          injection h with h
          exact Or.inr (Or.inl ⟨hv, he, h.symm⟩)

theorem moved_snake_zero (s : Game) (d : Direction) :
    (moved s d).snake 0
      = ⟨(s.snake 0).x + (DIRECTIONS d).1, (s.snake 0).y + (DIRECTIONS d).2⟩ := by
  simp [moved, writeSnake]

theorem moved_snake_body (s : Game) (d : Direction) {i : Nat} (h1 : 1 ≤ i)
    (h2 : i < s.snake_length) : (moved s d).snake i = s.snake (i - 1) := by
  simp only [moved, writeSnake]
  rw [if_neg (by omega), if_pos ⟨h1, by omega⟩]

theorem moved_snake_rest (s : Game) (d : Direction) {i : Nat} (h1 : 1 ≤ i)
    (h2 : s.snake_length ≤ i) : (moved s d).snake i = s.snake i := by
  simp only [moved, writeSnake]
  rw [if_neg (by omega), if_neg (by omega)]

/-! ## Invariants of the reachable states -/

/-- In every reachable state the food passes `isValidPos` against the body. -/
theorem reachable_passes {pq : OpenList} {s : Game} (h : Reachable pq s) :
    Passes s.snake s.snake_length s.apple.1 s.apple.2 := by
  induction h with
  | reset s0 s hr =>
    obtain ⟨a, b, rest, rfl, hp⟩ := resetGame_ok hr
    exact hp
  | tick s s1 now _ _ hm ih =>
    obtain ⟨d, hd, hc | hc | hc⟩ := moveSnake_cases hm
    · obtain ⟨-, rfl⟩ := hc
      exact ih
    · obtain ⟨hv, hne, rfl⟩ := hc
      rw [passes_iff] at ih ⊢
      refine ⟨ih.1, fun i hi => ⟨(ih.2 i hi).1, ?_⟩⟩
      by_cases h0 : i = 0
      · subst h0
        rw [moved_snake_zero]
        exact hne
      · have hi2 : i < s.snake_length := hi
        rw [moved_snake_body s d (by omega) hi2]
        exact (ih.2 (i - 1) (by omega)).2
    · obtain ⟨-, -, hn⟩ := hc
      obtain ⟨a, b, rest, rfl, hp⟩ := newApple_ok hn
      exact hp
  | stamp s t _ ih => exact ih

/-- In every reachable state the tick interval is 500, 100 or 50. -/
theorem reachable_speed {pq : OpenList} {s : Game} (h : Reachable pq s) :
    s.speed = 500 ∨ s.speed = 100 ∨ s.speed = 50 := by
  induction h with
  | reset s0 s hr =>
    obtain ⟨a, b, rest, rfl, -⟩ := resetGame_ok hr
    exact Or.inl rfl
  | tick s s1 now _ _ hm ih =>
    obtain ⟨d, hd, hc | hc | hc⟩ := moveSnake_cases hm
    · obtain ⟨-, rfl⟩ := hc
      exact ih
    · obtain ⟨-, -, rfl⟩ := hc
      exact ih
    · obtain ⟨-, -, hn⟩ := hc
      obtain ⟨a, b, rest, rfl, -⟩ := newApple_ok hn
      show max MIN_SPEED (s.speed / 5) = 500 ∨ max MIN_SPEED (s.speed / 5) = 100
        ∨ max MIN_SPEED (s.speed / 5) = 50
      rcases ih with h | h | h <;> rw [h] <;> norm_num [MIN_SPEED]
  | stamp s t _ ih => exact ih

/-- The first tick of the first game leads to a reachable state. -/
theorem firstGame_one_reachable : ∃ s, firstGame 1 = .ok s ∧ Reachable listQueue s := by
  have hok : (firstGame 1).toBool = true := by decide
  cases hr : resetGame (initialGame [0, 0, 5, 5]) with
  | error e =>
    have : firstGame 1 = .error e := by simp only [firstGame, hr]
    rw [this] at hok
    cases hok
  | ok s0 =>
    have h1 : firstGame 1 = ticks listQueue 0 1 s0 := by simp only [firstGame, hr]
    cases hm : moveSnake listQueue s0 0 with
    | error e =>
      have : firstGame 1 = .error e := by rw [h1]; simp only [ticks, hm]
      rw [this] at hok
      cases hok
    | ok s1 =>
      have h2 : firstGame 1 = .ok s1 := by rw [h1]; simp only [ticks, hm]
      refine ⟨s1, h2, ?_⟩
      obtain ⟨a, b, rest, hs0, -⟩ := resetGame_ok hr
      exact Reachable.tick s0 s1 0 (Reachable.reset _ _ hr) (by rw [hs0]) hm

/-- C14: in every state reachable from `resetGame` the tick interval is one of 500, 100,
50, and every `moveSnake` tick that completes leaves `speed' ≤ speed` and
`speed' ≥ MIN_SPEED = 50`; a tick that does not reach the food (the head plus the delta of
the direction in use is not the food cell) leaves `speed` unchanged. -/
theorem speed_never_rises {pq : OpenList} {s : Game} (h : Reachable pq s) :
    (s.speed = 500 ∨ s.speed = 100 ∨ s.speed = 50)
      ∧ ∀ now s1, moveSnake pq s now = .ok s1 →
          s1.speed ≤ s.speed ∧ MIN_SPEED ≤ s1.speed
            ∧ (∀ d, steer pq s = .ok d →
                ¬((s.snake 0).x + (DIRECTIONS d).1 = s.apple.1
                  ∧ (s.snake 0).y + (DIRECTIONS d).2 = s.apple.2) →
                s1.speed = s.speed) := by
  have hsp := reachable_speed h
  refine ⟨hsp, fun now s1 hm => ?_⟩
  have hmin : MIN_SPEED ≤ s.speed := by
    rcases hsp with h | h | h <;> rw [h] <;> norm_num [MIN_SPEED]
  obtain ⟨d, hd, hc | hc | hc⟩ := moveSnake_cases hm
  · obtain ⟨-, rfl⟩ := hc
    exact ⟨le_refl _, hmin, fun _ _ _ => rfl⟩
  · obtain ⟨-, -, rfl⟩ := hc
    exact ⟨le_refl _, hmin, fun _ _ _ => rfl⟩
  · obtain ⟨-, heat, hn⟩ := hc
    obtain ⟨a, b, rest, rfl, -⟩ := newApple_ok hn
    refine ⟨?_, ?_, ?_⟩
    · show max MIN_SPEED (s.speed / 5) ≤ s.speed
      rcases hsp with h | h | h <;> rw [h] <;> norm_num [MIN_SPEED]
    · show MIN_SPEED ≤ max MIN_SPEED (s.speed / 5)
      exact le_max_left _ _
    · intro d2 hd2 hne
      rw [hd] at hd2
      injection hd2 with hd2
      subst hd2
      exact absurd heat hne

/-- Witness of C14: the state after the first tick of the first game is reachable; that
tick did not reach the food and left the interval at 500. -/
theorem speed_never_rises_witness :
    (firstGame 1).map (fun s => (s.snake 0, s.apple, s.score)) = .ok (⟨2, 3⟩, (0, 0), 0)
      ∧ ∃ s, firstGame 1 = .ok s ∧ Reachable listQueue s
        ∧ (s.speed = 500 ∨ s.speed = 100 ∨ s.speed = 50)
        ∧ ∀ now s1, moveSnake listQueue s now = .ok s1 →
            s1.speed ≤ s.speed ∧ MIN_SPEED ≤ s1.speed
              ∧ (∀ d, steer listQueue s = .ok d →
                  ¬((s.snake 0).x + (DIRECTIONS d).1 = s.apple.1
                    ∧ (s.snake 0).y + (DIRECTIONS d).2 = s.apple.2) →
                  s1.speed = s.speed) := by
  obtain ⟨s, hs, hr⟩ := firstGame_one_reachable
  exact ⟨by decide, s, hs, hr, speed_never_rises hr⟩

/-- C19: in every state reachable from `resetGame` by `moveSnake` ticks taken with
`gameOver` false, whatever the random draws, the food cell is in bounds and differs from
each of the first `snake_length` body segments. -/
theorem food_never_under_snake {pq : OpenList} {s : Game} (h : Reachable pq s) :
    InGrid s.apple.1 s.apple.2
      ∧ ∀ i < s.snake_length, ¬((s.snake i).x = s.apple.1 ∧ (s.snake i).y = s.apple.2) := by
  have hp := (passes_iff _ _ _ _).mp (reachable_passes h)
  exact ⟨hp.1, fun i hi => (hp.2 i hi).2⟩

/-- Witness of C19: the state after the first tick of the first game. -/
theorem food_never_under_snake_witness :
    (firstGame 1).map (fun s => (s.snake 0, s.snake 1, s.snake_length, s.apple))
        = .ok (⟨2, 3⟩, ⟨3, 3⟩, 2, (0, 0))
      ∧ ∃ s, firstGame 1 = .ok s ∧ Reachable listQueue s
        ∧ InGrid s.apple.1 s.apple.2
        ∧ ∀ i < s.snake_length,
            ¬((s.snake i).x = s.apple.1 ∧ (s.snake i).y = s.apple.2) := by
  obtain ⟨s, hs, hr⟩ := firstGame_one_reachable
  exact ⟨by decide, s, hs, hr, food_never_under_snake hr⟩

/-! ## The loop step and the remaining claims about the tick -/

/-- What `resetGame` yields when it completes. -/
theorem resetGame_fresh (s : Game) :
    resetGame s = .error .noRandom
      ∨ ∃ s1, resetGame s = .ok s1 ∧ s1.gameOver = false ∧ s1.snake_length = 2
        ∧ s1.snake 0 = ⟨3, 3⟩ ∧ s1.snake 1 = ⟨3, 2⟩ ∧ s1.score = 0 ∧ s1.speed = 500 := by
  have he : resetGame s = match newApple (freshGame s) with
      | .error e => .error e
      | .ok s4 => .ok { s4 with gameOver := false } := rfl
  rw [he]
  rcases newApple_spec (freshGame s) (show 2 ≤ SNAKE_CAPACITY by decide)
    with h | ⟨a, b, rest, h, -⟩
  · rw [h]
    exact Or.inl rfl
  · rw [h]
    exact Or.inr ⟨_, rfl, rfl, rfl, rfl, rfl, rfl, rfl⟩

/-- C15: in the game-over state the loop step never advances the snake.  With `gameOver`
set, if fewer than 1000 ms have elapsed since `gameOverTime` (in wrapping `unsigned long`
arithmetic) the step leaves the whole state unchanged; if at least 1000 ms have elapsed the
step is exactly `resetGame`, which, unless the random source never offers a free cell,
returns to playing with the starting snake `(3,3),(3,2)`, score 0 and interval 500. -/
theorem loop_when_over {pq : OpenList} (s : Game) (t1 t2 t3 : Nat)
    (hover : s.gameOver = true) :
    (subUnsignedLong t1 s.gameOverTime < 1000 → loop pq s t1 t2 t3 = .ok s)
      ∧ (1000 ≤ subUnsignedLong t1 s.gameOverTime →
          loop pq s t1 t2 t3 = resetGame s
            ∧ (resetGame s = .error .noRandom
              ∨ ∃ s1, resetGame s = .ok s1 ∧ s1.gameOver = false ∧ s1.snake_length = 2
                ∧ s1.snake 0 = ⟨3, 3⟩ ∧ s1.snake 1 = ⟨3, 2⟩ ∧ s1.score = 0
                ∧ s1.speed = 500)) := by
  refine ⟨fun h => ?_, fun h => ⟨?_, resetGame_fresh s⟩⟩
  · unfold loop
    rw [if_pos hover, if_neg (by omega)]
  · unfold loop
    rw [if_pos hover, if_pos (by omega)]

/-- Witness of C15: game over at clock 5000; at 5999 nothing changes, at 6000 the game is
reset (score 7 becomes 0, `gameOver` false, food at the drawn cell `(4,4)`). -/
theorem loop_when_over_witness :
    overGame.gameOver = true
      ∧ subUnsignedLong 5999 overGame.gameOverTime = 999
      ∧ subUnsignedLong 6000 overGame.gameOverTime = 1000
      ∧ (loop listQueue overGame 6000 0 0).map
          (fun s => (s.gameOver, s.score, s.snake 0, s.snake 1, s.apple))
          = .ok (false, 0, ⟨3, 3⟩, ⟨3, 2⟩, (4, 4))
      ∧ loop listQueue overGame 5999 0 0 = .ok overGame
      ∧ (subUnsignedLong 6000 overGame.gameOverTime < 1000 →
          loop listQueue overGame 6000 0 0 = .ok overGame)
      ∧ (1000 ≤ subUnsignedLong 6000 overGame.gameOverTime →
          loop listQueue overGame 6000 0 0 = resetGame overGame
            ∧ (resetGame overGame = .error .noRandom
              ∨ ∃ s1, resetGame overGame = .ok s1 ∧ s1.gameOver = false
                ∧ s1.snake_length = 2 ∧ s1.snake 0 = ⟨3, 3⟩ ∧ s1.snake 1 = ⟨3, 2⟩
                ∧ s1.score = 0 ∧ s1.speed = 500)) := by
  have h1 := @loop_when_over listQueue overGame 5999 0 0 rfl
  have h2 := @loop_when_over listQueue overGame 6000 0 0 rfl
  exact ⟨rfl, by decide, by decide, by decide, h1.1 (by decide), h2.1, h2.2⟩

/-- When a path is found and the head is not on the food, `steer` turns toward a cell that
passes `isValidPos`. -/
theorem steer_toward_free {pq : OpenList} (hpq : pq.Lawful) (s : Game) (path : List Node)
    (hne : ¬((s.snake 0).x = s.apple.1 ∧ (s.snake 0).y = s.apple.2))
    (hfound : findPathAStar pq SEARCH_FUEL s.snake s.snake_length (s.snake 0).x (s.snake 0).y
      s.apple.1 s.apple.2 = .ok (some path)) :
    ∃ d, steer pq s = .ok d
      ∧ Passes s.snake s.snake_length ((s.snake 0).x + (DIRECTIONS d).1)
          ((s.snake 0).y + (DIRECTIONS d).2) := by
  obtain ⟨⟨hhead, hlast, hchain⟩, -⟩ := path_cells_valid hpq _ _ _ _ _ _ _ path hfound
  rcases List.eq_nil_or_concat path with hnil | ⟨L, first, hL⟩
  · rw [hnil] at hhead
    cases hhead
  · rw [List.concat_eq_append] at hL
    subst hL
    have hfirst : first.cell = ((s.snake 0).x, (s.snake 0).y) := by
      simpa using hhead
    have hback : (L ++ [first]).getLast? = some first := by simp
    have hsteer := steer_of_found hfound hback
    rcases List.eq_nil_or_concat L with hnil | ⟨L1, second, hL1⟩
    · subst hnil
      exfalso
      have hl : first.cell = (s.apple.1, s.apple.2) := by
        simpa using hlast
      rw [hfirst] at hl
      exact hne ⟨congrArg Prod.fst hl, congrArg Prod.snd hl⟩
    · rw [List.concat_eq_append] at hL1
      subst hL1
      have hstep : ValidStep s.snake s.snake_length first.cell second.cell := by
        simp only [List.map_append, List.map_cons, List.map_nil, List.reverse_append,
          List.reverse_cons, List.reverse_nil, List.nil_append, List.cons_append,
          List.singleton_append] at hchain
        exact (List.chain'_cons.mp hchain).1
      obtain ⟨⟨d0, -, hd0⟩, hp⟩ := hstep
      rw [hfirst] at hd0
      have hsx : second.x = (s.snake 0).x + (DIRECTIONS d0).1 := congrArg Prod.fst hd0
      have hsy : second.y = (s.snake 0).y + (DIRECTIONS d0).2 := congrArg Prod.snd hd0
      have hdrop : ((L1 ++ [second] ++ [first]).dropLast.getLast?).getD first = second := by
        simp
      rw [hdrop, hsx, hsy] at hsteer
      have hd : steer pq s = .ok d0 := by
        rw [hsteer]
        cases d0 <;> simp [DIRECTIONS]
      refine ⟨d0, hd, ?_⟩
      have hp2 : Passes s.snake s.snake_length second.x second.y := hp
      rw [hsx, hsy] at hp2
      exact hp2

/-- C16: a tick for which a route exists never ends the game.  For every state whose head
differs from the food cell, if `findPathAStar` succeeds from the head to the food, then the
direction in use leads to a cell 4-adjacent to the head that passes `isValidPos` before the
move, the tick takes the non-colliding branch, and any completed tick leaves `gameOver` as it
was with the head on that cell.  Hence a completed tick that sets `gameOver` is one on which
`findPathAStar` returned false. -/
theorem route_keeps_game_alive {pq : OpenList} (hpq : pq.Lawful) (s : Game) (now : Nat)
    (hne : ¬((s.snake 0).x = s.apple.1 ∧ (s.snake 0).y = s.apple.2)) :
    (∀ path, findPathAStar pq SEARCH_FUEL s.snake s.snake_length (s.snake 0).x (s.snake 0).y
          s.apple.1 s.apple.2 = .ok (some path) →
        ∃ d, steer pq s = .ok d
          ∧ Adjacent ((s.snake 0).x, (s.snake 0).y)
              ((s.snake 0).x + (DIRECTIONS d).1, (s.snake 0).y + (DIRECTIONS d).2)
          ∧ Passes s.snake s.snake_length ((s.snake 0).x + (DIRECTIONS d).1)
              ((s.snake 0).y + (DIRECTIONS d).2)
          ∧ moveSnake pq s now =
              (if (s.snake 0).x + (DIRECTIONS d).1 = s.apple.1
                  ∧ (s.snake 0).y + (DIRECTIONS d).2 = s.apple.2
                then newApple (grown s d) else .ok (moved s d))
          ∧ ∀ s1, moveSnake pq s now = .ok s1 →
              s1.gameOver = s.gameOver
                ∧ s1.snake 0 = ⟨(s.snake 0).x + (DIRECTIONS d).1,
                    (s.snake 0).y + (DIRECTIONS d).2⟩)
      ∧ (∀ s1, moveSnake pq s now = .ok s1 → s.gameOver = false → s1.gameOver = true →
          findPathAStar pq SEARCH_FUEL s.snake s.snake_length (s.snake 0).x (s.snake 0).y
            s.apple.1 s.apple.2 = .ok none) := by
  have main : ∀ path, findPathAStar pq SEARCH_FUEL s.snake s.snake_length (s.snake 0).x
        (s.snake 0).y s.apple.1 s.apple.2 = .ok (some path) →
      ∃ d, steer pq s = .ok d
        ∧ Passes s.snake s.snake_length ((s.snake 0).x + (DIRECTIONS d).1)
            ((s.snake 0).y + (DIRECTIONS d).2)
        ∧ ∀ s1, moveSnake pq s now = .ok s1 →
            s1.gameOver = s.gameOver
              ∧ s1.snake 0 = ⟨(s.snake 0).x + (DIRECTIONS d).1,
                  (s.snake 0).y + (DIRECTIONS d).2⟩ := by
    intro path hfound
    obtain ⟨d, hd, hp⟩ := steer_toward_free hpq s path hne hfound
    refine ⟨d, hd, hp, fun s1 hm => ?_⟩
    rw [moveSnake_of_free now hd hp] at hm
    split_ifs at hm
    · obtain ⟨a, b, rest, rfl, -⟩ := newApple_ok hm
      exact ⟨rfl, moved_snake_zero s d⟩
    · injection hm with hm
      rw [← hm]
      exact ⟨rfl, moved_snake_zero s d⟩
  refine ⟨fun path hfound => ?_, fun s1 hm h0 h1 => ?_⟩
  · obtain ⟨d, hd, hp, hall⟩ := main path hfound
    exact ⟨d, hd, adjacent_step _ _ d, hp, moveSnake_of_free now hd hp, hall⟩
  · cases hf : findPathAStar pq SEARCH_FUEL s.snake s.snake_length (s.snake 0).x (s.snake 0).y
        s.apple.1 s.apple.2 with
    | error e =>
      have : steer pq s = .error e := by simp only [steer, hf]
      simp [moveSnake, this] at hm
    | ok r =>
      cases r with
      | none => rfl
      | some path =>
        obtain ⟨d, -, -, hall⟩ := main path hf
        have := (hall s1 hm).1
        rw [h0, h1] at this
        cases this

/-- Witness of C16 on the scenario of the specification: a route from `(3,3)` to `(5,3)`
exists, and the tick moves the head to `(4,3)` without ending the game. -/
theorem route_keeps_game_alive_witness :
    ¬((scenarioGame.snake 0).x = scenarioGame.apple.1
        ∧ (scenarioGame.snake 0).y = scenarioGame.apple.2)
      ∧ findPathAStar listQueue SEARCH_FUEL scenarioGame.snake scenarioGame.snake_length
          (scenarioGame.snake 0).x (scenarioGame.snake 0).y scenarioGame.apple.1
          scenarioGame.apple.2 = .ok (some scenarioPath)
      ∧ (moveSnake listQueue scenarioGame 0).map (fun s => (s.gameOver, s.snake 0))
          = .ok (false, ⟨4, 3⟩)
      ∧ ∃ d, steer listQueue scenarioGame = .ok d
        ∧ Adjacent ((scenarioGame.snake 0).x, (scenarioGame.snake 0).y)
            ((scenarioGame.snake 0).x + (DIRECTIONS d).1,
              (scenarioGame.snake 0).y + (DIRECTIONS d).2)
        ∧ Passes scenarioGame.snake scenarioGame.snake_length
            ((scenarioGame.snake 0).x + (DIRECTIONS d).1)
            ((scenarioGame.snake 0).y + (DIRECTIONS d).2)
        ∧ moveSnake listQueue scenarioGame 0 =
            (if (scenarioGame.snake 0).x + (DIRECTIONS d).1 = scenarioGame.apple.1
                ∧ (scenarioGame.snake 0).y + (DIRECTIONS d).2 = scenarioGame.apple.2
              then newApple (grown scenarioGame d) else .ok (moved scenarioGame d))
        ∧ ∀ s1, moveSnake listQueue scenarioGame 0 = .ok s1 →
            s1.gameOver = scenarioGame.gameOver
              ∧ s1.snake 0 = ⟨(scenarioGame.snake 0).x + (DIRECTIONS d).1,
                  (scenarioGame.snake 0).y + (DIRECTIONS d).2⟩ :=
  ⟨by decide, by decide, by decide,
    (route_keeps_game_alive listQueue_lawful scenarioGame 0 (by decide)).1 scenarioPath
      (by decide)⟩

/-- C20: on a tick in which the head reaches the food with old length `n ≥ 1` (below the
capacity), either the random source never offers a free cell, or `moveSnake` completes with
`snake_length = n + 1` having written only the segments `0 .. n-1`: every slot from `n` on,
in particular the new tail `snake[n]`, keeps the value it held before the tick.  That stale
value is what `isValidPos` reports as occupied and what `newApple` avoided, and it stays
until a later non-colliding tick shifts segment `n - 1` into slot `n`. -/
theorem moveSnake_new_tail_stale {pq : OpenList} (s : Game) (now : Nat) (d : Direction)
    (hd : steer pq s = .ok d) (hpos : 1 ≤ s.snake_length)
    (hlen : s.snake_length < SNAKE_CAPACITY)
    (hv : Passes s.snake s.snake_length ((s.snake 0).x + (DIRECTIONS d).1)
      ((s.snake 0).y + (DIRECTIONS d).2))
    (heat : (s.snake 0).x + (DIRECTIONS d).1 = s.apple.1
      ∧ (s.snake 0).y + (DIRECTIONS d).2 = s.apple.2) :
    moveSnake pq s now = .error .noRandom
      ∨ ∃ s1, moveSnake pq s now = .ok s1
        ∧ s1.snake_length = s.snake_length + 1
        ∧ (∀ i, s.snake_length ≤ i → s1.snake i = s.snake i)
        ∧ s1.snake s.snake_length = s.snake s.snake_length
        ∧ isValidPos s1.snake s1.snake_length (s.snake s.snake_length).x
            (s.snake s.snake_length).y = .ok false
        ∧ ¬(s1.apple.1 = (s.snake s.snake_length).x ∧ s1.apple.2 = (s.snake s.snake_length).y)
        ∧ ∀ now2 s2, moveSnake pq s1 now2 = .ok s2 →
            s2.snake = s1.snake ∨ s2.snake s.snake_length = s1.snake (s.snake_length - 1) := by
  rw [moveSnake_of_free now hd hv, if_pos heat]
  rcases newApple_spec (grown s d) (show s.snake_length + 1 ≤ SNAKE_CAPACITY from hlen)
    with h | ⟨a, b, rest, h, hp⟩
  · exact Or.inl h
  · refine Or.inr ⟨_, h, rfl, ?_, ?_, ?_, ?_, ?_⟩
    · intro i hi
      exact moved_snake_rest s d (by omega) hi
    · exact moved_snake_rest s d hpos (le_refl _)
    · show isValidPos (grown s d).snake (s.snake_length + 1) _ _ = _
      rw [isValidPos_false_iff _ (show s.snake_length + 1 ≤ SNAKE_CAPACITY from hlen)]
      exact Or.inr ⟨s.snake_length, Nat.lt_succ_self _,
        congrArg SnakeSegment.x (moved_snake_rest s d hpos (le_refl _)),
        congrArg SnakeSegment.y (moved_snake_rest s d hpos (le_refl _))⟩
    · have hq := ((passes_iff _ _ _ _).mp hp).2 s.snake_length (Nat.lt_succ_self _)
      have e : (grown s d).snake s.snake_length = s.snake s.snake_length :=
        moved_snake_rest s d hpos (le_refl _)
      rw [e] at hq
      intro hc
      exact hq.2 ⟨hc.1.symm, hc.2.symm⟩
    · intro now2 s2 hm2
      obtain ⟨d2, -, hc | hc | hc⟩ := moveSnake_cases hm2
      · obtain ⟨-, rfl⟩ := hc
        exact Or.inl rfl
      · obtain ⟨-, -, rfl⟩ := hc
        exact Or.inr (moved_snake_body _ d2 hpos (Nat.lt_succ_self _))
      · obtain ⟨-, -, hn⟩ := hc
        obtain ⟨a2, b2, rest2, rfl, -⟩ := newApple_ok hn
        exact Or.inr (moved_snake_body _ d2 hpos (Nat.lt_succ_self _))

/-- Witness of C20, the second scenario of the specification: after the snake
`(0,0),(0,1)` eats the food at `(1,0)` its third segment is the never-written slot `(0,0)`,
not the old tail `(0,1)`. -/
theorem moveSnake_new_tail_stale_witness :
    steer listQueue eatingGame = .ok .RIGHT
      ∧ eatingGame.snake_length = 2 ∧ eatingGame.snake 2 = ⟨0, 0⟩
      ∧ (moveSnake listQueue eatingGame 0).map
          (fun s => (s.snake_length, s.snake 0, s.snake 1, s.snake 2))
          = .ok (3, ⟨1, 0⟩, ⟨0, 0⟩, ⟨0, 0⟩)
      ∧ (moveSnake listQueue eatingGame 0 = .error .noRandom
        ∨ ∃ s1, moveSnake listQueue eatingGame 0 = .ok s1
          ∧ s1.snake_length = eatingGame.snake_length + 1
          ∧ (∀ i, eatingGame.snake_length ≤ i → s1.snake i = eatingGame.snake i)
          ∧ s1.snake eatingGame.snake_length = eatingGame.snake eatingGame.snake_length
          ∧ isValidPos s1.snake s1.snake_length (eatingGame.snake eatingGame.snake_length).x
              (eatingGame.snake eatingGame.snake_length).y = .ok false
          ∧ ¬(s1.apple.1 = (eatingGame.snake eatingGame.snake_length).x
              ∧ s1.apple.2 = (eatingGame.snake eatingGame.snake_length).y)
          ∧ ∀ now2 s2, moveSnake listQueue s1 now2 = .ok s2 →
              s2.snake = s1.snake
                ∨ s2.snake eatingGame.snake_length
                    = s1.snake (eatingGame.snake_length - 1)) :=
  ⟨by decide, rfl, by decide, by decide,
    @moveSnake_new_tail_stale listQueue eatingGame 0 .RIGHT (by decide) (by decide)
      (by decide) (by decide) ⟨by decide, by decide⟩⟩

/-! ## Iterations of the search loop -/

theorem expansions_succ (pq : OpenList) (snake : Nat → SnakeSegment) (len : Nat)
    (dX dY : Int) (fuel : Nat) (q : pq.Q) (closed : Int → Int → Bool) :
    expansions pq snake len dX dY (fuel + 1) q closed =
      match pq.pop q with
      | none => []
      | some (current, q1) =>
        if current.x = dX ∧ current.y = dY then []
        else if InGrid current.x current.y then
          match expand pq snake len dX dY current (markClosed closed current.x current.y)
              directionOrder q1 with
          | .error _ => [(current.x, current.y)]
          | .ok q2 =>
            (current.x, current.y)
              :: expansions pq snake len dX dY fuel q2 (markClosed closed current.x current.y)
        else [] := by
  rfl

/-- More fuel does not change what the loop returns. -/
theorem searchLoop_mono (pq : OpenList) (snake : Nat → SnakeSegment) (len : Nat)
    (dX dY : Int) :
    ∀ (fuel : Nat) (q : pq.Q) (closed : Int → Int → Bool) (r : Option (List Node)),
      searchLoop pq snake len dX dY fuel q closed = .ok r →
      searchLoop pq snake len dX dY (fuel + 1) q closed = .ok r := by
  intro fuel
  induction fuel with
  | zero => intro q closed r h; cases h
  | succ fuel ih =>
    intro q closed r h
    rw [searchLoop_succ] at h ⊢
    cases hpop : pq.pop q with
    | none => rw [hpop] at h; exact h
    | some p =>
      obtain ⟨current, q1⟩ := p
      rw [hpop] at h
      simp only at h ⊢
      split_ifs at h ⊢ with hd hg
      · exact h
      · cases hexp : expand pq snake len dX dY current (markClosed closed current.x current.y)
            directionOrder q1 with
        | error e => rw [hexp] at h; cases h
        | ok q2 =>
          rw [hexp] at h
          exact ih _ _ _ h

theorem searchLoop_mono_le (pq : OpenList) (snake : Nat → SnakeSegment) (len : Nat)
    (dX dY : Int) (q : pq.Q) (closed : Int → Int → Bool) (r : Option (List Node))
    {fuel fuel2 : Nat} (hle : fuel ≤ fuel2)
    (h : searchLoop pq snake len dX dY fuel q closed = .ok r) :
    searchLoop pq snake len dX dY fuel2 q closed = .ok r := by
  induction hle with
  | refl => exact h
  | step _ ih => exact searchLoop_mono pq snake len dX dY _ q closed r ih

/-- The list `expansions` counts the iterations: a loop that returns did so in exactly one
iteration more than it expanded nodes. -/
theorem expansions_counts_iterations (pq : OpenList) (snake : Nat → SnakeSegment) (len : Nat)
    (dX dY : Int) :
    ∀ (fuel : Nat) (q : pq.Q) (closed : Int → Int → Bool) (r : Option (List Node)),
      searchLoop pq snake len dX dY fuel q closed = .ok r →
      searchLoop pq snake len dX dY ((expansions pq snake len dX dY fuel q closed).length + 1)
          q closed = .ok r
        ∧ searchLoop pq snake len dX dY (expansions pq snake len dX dY fuel q closed).length
          q closed = .error .noFuel := by
  intro fuel
  induction fuel with
  | zero => intro q closed r h; cases h
  | succ fuel ih =>
    intro q closed r h
    rw [searchLoop_succ] at h
    rw [expansions_succ]
    cases hpop : pq.pop q with
    | none =>
      rw [hpop] at h
      refine ⟨?_, rfl⟩
      simp only [List.length_nil, zero_add]
      rw [searchLoop_succ, hpop]
      exact h
    | some p =>
      obtain ⟨current, q1⟩ := p
      rw [hpop] at h
      simp only at h ⊢
      by_cases hd : current.x = dX ∧ current.y = dY
      · rw [if_pos hd] at h ⊢
        refine ⟨?_, rfl⟩
        simp only [List.length_nil, zero_add]
        rw [searchLoop_succ, hpop]
        simp only
        rw [if_pos hd]
        exact h
      · rw [if_neg hd] at h ⊢
        by_cases hg : InGrid current.x current.y
        · rw [if_pos hg] at h ⊢
          cases hexp : expand pq snake len dX dY current
              (markClosed closed current.x current.y) directionOrder q1 with
          | error e => rw [hexp] at h; cases h
          | ok q2 =>
            rw [hexp] at h
            simp only [List.length_cons]
            obtain ⟨h1, h2⟩ := ih _ _ _ h
            refine ⟨?_, ?_⟩
            · rw [searchLoop_succ, hpop]
              simp only
              rw [if_neg hd, if_pos hg, hexp]
              exact h1
            · rw [searchLoop_succ, hpop]
              simp only
              rw [if_neg hd, if_pos hg, hexp]
              exact h2
        · rw [if_neg hg] at h
          cases h

/-- The loop expands no more nodes than the termination measure of its starting state. -/
theorem expansions_length_le {pq : OpenList} (hpq : pq.Lawful) (snake : Nat → SnakeSegment)
    {len : Nat} (hlen : len ≤ SNAKE_CAPACITY) (dX dY : Int) :
    ∀ (fuel : Nat) (q : pq.Q) (closed : Int → Int → Bool),
      (∀ n ∈ pq.contents q, InGrid n.x n.y) →
      (expansions pq snake len dX dY fuel q closed).length ≤ searchMeasure pq q closed := by
  intro fuel
  induction fuel with
  | zero => intro q closed _; exact Nat.zero_le _
  | succ fuel ih =>
    intro q closed hin
    rw [expansions_succ]
    cases hpop : pq.pop q with
    | none => exact Nat.zero_le _
    | some p =>
      obtain ⟨current, q1⟩ := p
      simp only
      by_cases hd : current.x = dX ∧ current.y = dY
      · rw [if_pos hd]
        exact Nat.zero_le _
      · rw [if_neg hd]
        have hg : InGrid current.x current.y :=
          hin current ((hpq.mem_pop hpop current).mpr (Or.inl rfl))
        rw [if_pos hg]
        obtain ⟨q2, hexp⟩ := expand_total pq snake hlen dX dY current
          (markClosed closed current.x current.y) directionOrder q1
        rw [hexp]
        simp only [List.length_cons]
        have hstep := searchMeasure_step hpq hpop hg hexp
        have hin2 : ∀ n ∈ pq.contents q2, InGrid n.x n.y := by
          intro n hn
          have hperm := expand_contents hpq snake len dX dY current
            (markClosed closed current.x current.y) directionOrder q1 q2 hexp
          rw [hperm.mem_iff, List.mem_append] at hn
          rcases hn with h | h
          · rw [mem_children_iff] at h
            obtain ⟨d, -, hgd, -, -, rfl⟩ := h
            exact hgd
          · exact hin n ((hpq.mem_pop hpop n).mpr (Or.inr h))
        have := ih q2 (markClosed closed current.x current.y) hin2
        omega

/-- C17: `findPathAStar` always terminates.  For every in-bounds start, every goal and
every snake body that fits the array, on any lawful queue, the search loop expands at most
`5 ^ 128` nodes whatever the fuel, and with any fuel above `5 ^ 128` it returns one and the
same result: the path, or false after exhausting the open list. -/
theorem findPathAStar_terminates {pq : OpenList} (hpq : pq.Lawful)
    (snake : Nat → SnakeSegment) {len : Nat} (hlen : len ≤ SNAKE_CAPACITY) {sX sY : Int}
    (hs : InGrid sX sY) (dX dY : Int) :
    (∀ fuel, (expandedCells pq fuel snake len sX sY dX dY).length ≤ 5 ^ 128)
      ∧ ∃ r, ∀ fuel, 5 ^ 128 < fuel → findPathAStar pq fuel snake len sX sY dX dY = .ok r := by
  have hmem : ∀ m, m ∈ pq.contents (pq.push pq.empty
      (Node.new sX sY 0 (heuristic sX sY dX dY) .null)) ↔
      m = Node.new sX sY 0 (heuristic sX sY dX dY) .null := by
    intro m
    rw [hpq.mem_push, hpq.contents_empty]
    simp
  have hmeasure : searchMeasure pq (pq.push pq.empty
      (Node.new sX sY 0 (heuristic sX sY dX dY) .null)) (fun _ _ => false) ≤ 5 ^ 128 := by
    have hperm := hpq.contents_push pq.empty (Node.new sX sY 0 (heuristic sX sY dX dY) .null)
    unfold searchMeasure
    rw [(hperm.map _).sum_eq, hpq.contents_empty]
    simp only [List.map_cons, List.map_nil, List.sum_cons, List.sum_nil, add_zero, weight,
      Bool.false_eq_true, if_false]
    exact Nat.pow_le_pow_right (by norm_num) (unclosed_le _)
  refine ⟨fun fuel => ?_, ?_⟩
  · unfold expandedCells
    refine le_trans (expansions_length_le hpq snake hlen dX dY fuel _ _ ?_) hmeasure
    intro n hn
    rw [hmem] at hn
    subst hn
    exact hs
  · obtain ⟨r, hr⟩ := findPathAStar_total hpq (Nat.lt_succ_self (5 ^ 128)) snake hlen hs dX dY
    refine ⟨r, fun fuel hfuel => ?_⟩
    exact searchLoop_mono_le pq snake len dX dY _ _ r hfuel hr

/-- Witness of C17 on the coiled snake: the search for the shut-off food expands five
nodes and returns false. -/
theorem findPathAStar_terminates_witness :
    12 ≤ SNAKE_CAPACITY ∧ InGrid 1 1
      ∧ (expandedCells listQueue SEARCH_FUEL coiledSegments 12 1 1 0 0).length = 5
      ∧ findPathAStar listQueue SEARCH_FUEL coiledSegments 12 1 1 0 0 = .ok none
      ∧ (∀ fuel, (expandedCells listQueue fuel coiledSegments 12 1 1 0 0).length ≤ 5 ^ 128)
      ∧ ∃ r, ∀ fuel, 5 ^ 128 < fuel →
          findPathAStar listQueue fuel coiledSegments 12 1 1 0 0 = .ok r :=
  ⟨by decide, by decide, by decide, by decide,
    findPathAStar_terminates listQueue_lawful coiledSegments (by decide) (by decide) 0 0⟩

/-- C18 fails on the code.  The coiled snake searches for the shut-off food at `(0,0)`: the
cell `(2,2)` is put on the open list twice, once from `(1,2)` and once from `(2,1)`, before it
is closed, and both entries are popped and expanded: five expansions for four cells. -/
theorem coiledGame_expands_twice :
    (coiledGame.snake 0, coiledGame.snake_length, coiledGame.apple) = (⟨1, 1⟩, 12, (0, 0))
      ∧ findPathAStar listQueue SEARCH_FUEL coiledGame.snake coiledGame.snake_length 1 1 0 0
          = .ok none
      ∧ expandedCells listQueue SEARCH_FUEL coiledGame.snake coiledGame.snake_length 1 1 0 0
          = [(1, 1), (1, 2), (2, 1), (2, 2), (2, 2)]
      ∧ ¬(expandedCells listQueue SEARCH_FUEL coiledGame.snake coiledGame.snake_length
            1 1 0 0).Nodup := by
  decide

end Snake
